import Mathlib

/-!
A shallow embedding of the `vfs` crate (`src/lib.rs`): an in-memory virtual
filesystem with a reusable-id allocator (`Identity`), a flat block store, an
inode arena (`fds`), a path resolver with symlink expansion, and the public
operation engine (`create`, `mkdir`, `rmdir`, `symlink`, `link`, `unlink`,
`open`, `close`, `seek`, `read`, `write`, `truncate`, `cd`, `stat`).

Conventions of the embedding:
* Rust `usize` values are `Nat`; no arithmetic here can overflow a `usize`
  in any scenario the theorems touch, and Rust panics on `usize` underflow
  while `Nat` subtraction truncates — every theorem below is either about
  states where no underflow occurs or about concrete traces that are
  re-checked against the source by hand.
* `BTreeSet<usize>` is a strictly sorted `List Nat`; `HashMap` is an
  association list with unique keys (first-match lookup).
* Rust's panicking accessors (`as_dir`, indexing) are embedded as total
  functions with a default; all theorems are stated on states where the
  source cannot panic, so the embedding and the source agree there.
* `Identity::next` / `Identity::free` are named `Identity.acquire` /
  `Identity.release` because `next` and `free` are the structure's fields;
  `Vfs::open` is named `Vfs.openFd` because `open` is a Lean keyword.
-/

set_option maxRecDepth 8000

def BLOCK_SIZE : Nat := 512

def INITIAL_BLOCKS_COUNT : Nat := 1024

def SYMLINK_RESOLVE_LIMIT : Nat := 8

/-- Embeds `struct Identity { free: BTreeSet<usize>, next: usize }`.
The `free` set is represented as a strictly increasing list. -/
structure Identity where
  free : List Nat
  next : Nat
  deriving Repr, DecidableEq

/-- Sorted-set insertion: embeds `BTreeSet::insert` on the sorted-list
representation. -/
def setInsert (x : Nat) : List Nat → List Nat
  | [] => [x]
  | y :: ys => if x < y then x :: y :: ys else if x = y then y :: ys else y :: setInsert x ys

/-- Embeds `Identity::new(preallocate, min)`. -/
def Identity.new (preallocate min : Nat) : Identity :=
  { free := List.range' min preallocate, next := min + preallocate }

/-- Embeds `Identity::next(&mut self) -> (usize, bool)` (named `acquire`
because `next` is the field's name): pop the smallest free id, or grow. -/
def Identity.acquire : Identity → (Nat × Bool) × Identity
  | ⟨[], n⟩ => ((n, true), ⟨[], n + 1⟩)
  | ⟨x :: xs, n⟩ => ((x, false), ⟨xs, n⟩)

/-- Embeds `Identity::free(&mut self, id)` (named `release` because `free`
is the field's name). -/
def Identity.release (s : Identity) (id : Nat) : Identity :=
  { s with free := setInsert id s.free }

theorem mem_setInsert {x z : Nat} {l : List Nat} :
    z ∈ setInsert x l ↔ z = x ∨ z ∈ l := by
  induction l with
  | nil => simp [setInsert]
  | cons y ys ih =>
    by_cases h1 : x < y
    · rw [setInsert, if_pos h1]
      simp only [List.mem_cons]
    · by_cases h2 : x = y
      · rw [setInsert, if_neg h1, if_pos h2]
        constructor
        · exact fun h => Or.inr h
        · rintro (rfl | h)
          · rw [h2]; exact List.mem_cons_self y ys
          · exact h
      · rw [setInsert, if_neg h1, if_neg h2]
        simp only [List.mem_cons, ih]
        tauto

theorem pairwise_setInsert {x : Nat} {l : List Nat}
    (h : l.Pairwise (· < ·)) : (setInsert x l).Pairwise (· < ·) := by
  induction l with
  | nil => simp [setInsert]
  | cons y ys ih =>
    rw [List.pairwise_cons] at h
    by_cases h1 : x < y
    · rw [setInsert, if_pos h1, List.pairwise_cons]
      refine ⟨?_, List.pairwise_cons.mpr h⟩
      intro z hz
      rcases List.mem_cons.mp hz with rfl | hz
      · exact h1
      · exact h1.trans (h.1 z hz)
    · by_cases h2 : x = y
      · rw [setInsert, if_neg h1, if_pos h2, List.pairwise_cons]
        exact h
      · rw [setInsert, if_neg h1, if_neg h2, List.pairwise_cons]
        refine ⟨?_, ih h.2⟩
        intro z hz
        rcases mem_setInsert.mp hz with rfl | hz
        · omega
        · exact h.1 z hz

theorem setInsert_idem (x : Nat) (l : List Nat) :
    setInsert x (setInsert x l) = setInsert x l := by
  induction l with
  | nil => simp [setInsert]
  | cons y ys ih =>
    by_cases h1 : x < y
    · simp [setInsert, h1, lt_irrefl]
    · by_cases h2 : x = y
      · subst h2; simp [setInsert, h1]
      · simp [setInsert, h1, h2, ih]

/-- Claim C7: on any allocator state whose free set is well-formed (strictly
sorted, all elements below the high-water mark `next`), `acquire` returns the
smallest free id with `grew = false` when the free set is non-empty, and
otherwise returns `next`, increments it, and reports `grew = true`;
`grew = true` holds exactly when the returned id equals the pre-call `next`;
and `release` is idempotent (a double release leaves the free set unchanged). -/
theorem identity_acquire_release_spec (s : Identity)
    (hsort : s.free.Pairwise (· < ·))
    (hlt : ∀ x ∈ s.free, x < s.next) :
    (∀ x xs, s.free = x :: xs →
        s.acquire = ((x, false), ⟨xs, s.next⟩) ∧ ∀ y ∈ s.free, x ≤ y) ∧
    (s.free = [] → s.acquire = ((s.next, true), ⟨[], s.next + 1⟩)) ∧
    (s.acquire.1.2 = true ↔ s.acquire.1.1 = s.next) ∧
    (∀ id, (s.release id).release id = s.release id) := by
  obtain ⟨f, n⟩ := s
  refine ⟨?_, ?_, ?_, ?_⟩
  · rintro x xs rfl
    refine ⟨rfl, ?_⟩
    intro y hy
    rcases List.mem_cons.mp hy with rfl | hy
    · exact le_refl y
    · have hs : (x :: xs).Pairwise (· < ·) := hsort
      rw [List.pairwise_cons] at hs
      exact le_of_lt (hs.1 y hy)
  · rintro rfl; rfl
  · cases f with
    | nil => simp [Identity.acquire]
    | cons x xs =>
      simp only [Identity.acquire]
      constructor
      · intro h; cases h
      · intro h
        exact absurd (h ▸ hlt x (by simp)) (lt_irrefl n)
  · intro id
    simp [Identity.release, setInsert_idem]

/-- Witness for C7 at the concrete allocator state with `free = [1, 2]`,
`next = 3` (that is, `Identity.new 2 1`). -/
theorem identity_acquire_release_spec_witness :
    ((Identity.new 2 1).free.Pairwise (· < ·) ∧
      ∀ x ∈ (Identity.new 2 1).free, x < (Identity.new 2 1).next) ∧
    ((∀ x xs, (Identity.new 2 1).free = x :: xs →
        (Identity.new 2 1).acquire = ((x, false), ⟨xs, (Identity.new 2 1).next⟩) ∧
          ∀ y ∈ (Identity.new 2 1).free, x ≤ y) ∧
      ((Identity.new 2 1).free = [] →
        (Identity.new 2 1).acquire =
          (((Identity.new 2 1).next, true), ⟨[], (Identity.new 2 1).next + 1⟩)) ∧
      ((Identity.new 2 1).acquire.1.2 = true ↔
        (Identity.new 2 1).acquire.1.1 = (Identity.new 2 1).next) ∧
      (∀ id, ((Identity.new 2 1).release id).release id =
        (Identity.new 2 1).release id)) :=
  ⟨⟨by decide, by decide⟩,
    identity_acquire_release_spec (Identity.new 2 1) (by decide) (by decide)⟩

/-! ### Path-string helpers (`Vfs::is_absolute`, `dirname`, `basename`,
`segmentize`, `trim_end_matches`) -/

/-- A single-quote character, built numerically so the source's quoted error
messages can be reproduced. -/
def sQuote : String := String.mk [Char.ofNat 39]

/-- Embeds `Vfs::is_absolute`: the pathname starts with `/`. -/
def isAbsolute (p : String) : Bool :=
  match p.data with
  | [] => false
  | c :: _ => c = '/'

/-- Index of the last `/` in a character list, or `none`: embeds
`str::rfind(PATHNAME_SEPARATOR)` (char-level; all paths here are ASCII, where
byte and char indices agree). -/
def lastSepIdx : List Char → Nat → Option Nat → Option Nat
  | [], _, best => best
  | c :: cs, i, best => lastSepIdx cs (i + 1) (if c = '/' then some i else best)

/-- Embeds `Vfs::dirname`. -/
def Vfs.dirname (p : String) : String :=
  match lastSepIdx p.data 0 none with
  | some idx => if idx = 0 then "/" else String.mk (p.data.take idx)
  | none => "."

/-- Embeds `Vfs::basename`. -/
def Vfs.basename (p : String) : String :=
  match lastSepIdx p.data 0 none with
  | some idx => String.mk (p.data.drop (idx + 1))
  | none => p

/-- Split a character list at `/`, dropping empty fragments; `acc` is the
current fragment, reversed. -/
def segChars : List Char → List Char → List (List Char)
  | [], acc => if acc = [] then [] else [acc.reverse]
  | c :: cs, acc =>
    if c = '/' then
      if acc = [] then segChars cs [] else acc.reverse :: segChars cs []
    else segChars cs (c :: acc)

/-- Embeds `Vfs::segmentize` without the `reverse` flag: the source reverses
the list to pop segments from the back, which this embedding renders as
processing a forward list head-first — the same traversal order. -/
def segmentize (s : String) : List String := (segChars s.data []).map String.mk

/-- Embeds `pathname.trim_end_matches(TRAILING_SEPARATOR)`. -/
def trimTrailingSep (p : String) : String :=
  String.mk ((p.data.reverse.dropWhile (fun c => c = '/')).reverse)

/-! ### Data model: `FileType`, `FileDescriptor`, `Statx`, `Vfs` -/

/-- Association-list lookup (first match): embeds `HashMap::get`. -/
def mapGet {β : Type} (l : List (Nat × β)) (k : Nat) : Option β :=
  match l with
  | [] => none
  | e :: es => if e.1 = k then some e.2 else mapGet es k

/-- Association-list lookup for string keys: embeds `HashMap::get`. -/
def entGet {β : Type} (l : List (String × β)) (k : String) : Option β :=
  match l with
  | [] => none
  | e :: es => if e.1 = k then some e.2 else entGet es k

/-- Association-list insert: embeds `HashMap::insert` (replace in place, or
append when the key is new). -/
def mapIns {β : Type} (k : Nat) (v : β) : List (Nat × β) → List (Nat × β)
  | [] => [(k, v)]
  | e :: es => if e.1 = k then (k, v) :: es else e :: mapIns k v es

/-- Association-list insert for string keys: embeds `HashMap::insert`. -/
def entIns {β : Type} (k : String) (v : β) : List (String × β) → List (String × β)
  | [] => [(k, v)]
  | e :: es => if e.1 = k then (k, v) :: es else e :: entIns k v es

/-- Association-list removal of the first match: embeds `HashMap::remove`. -/
def mapDel {β : Type} (k : Nat) : List (Nat × β) → List (Nat × β)
  | [] => []
  | e :: es => if e.1 = k then es else e :: mapDel k es

/-- Association-list removal for string keys: embeds `HashMap::remove`. -/
def entDel {β : Type} (k : String) : List (String × β) → List (String × β)
  | [] => []
  | e :: es => if e.1 = k then es else e :: entDel k es

/-- Embeds `enum FileType`: a regular file (block-ref list), a directory
(name-to-inode-id entries), or a symlink (raw target). -/
inductive FileType where
  | Regular (blocks_refs : List Nat)
  | Directory (entries : List (String × Nat))
  | Symlink (target : String)
  deriving Repr, DecidableEq

/-- Embeds `FileType::as_dir` (the source panics on a non-directory; the
embedding returns the empty map, and every theorem stays on states where the
panic branch is unreachable). -/
def FileType.as_dir : FileType → List (String × Nat)
  | .Directory entries => entries
  | _ => []

/-- Embeds `FileType::as_file` (panic branch embedded as the empty list). -/
def FileType.as_file : FileType → List Nat
  | .Regular blocks_refs => blocks_refs
  | _ => []

/-- Embeds `FileType::as_symlink` (panic branch embedded as `""`). -/
def FileType.as_symlink : FileType → String
  | .Symlink target => target
  | _ => ""

/-- Embeds `FileType::is_dir`. -/
def FileType.isDir : FileType → Bool
  | .Directory _ => true
  | _ => false

/-- Embeds `FileType::is_file`. -/
def FileType.isFile : FileType → Bool
  | .Regular _ => true
  | _ => false

/-- Embeds `FileType::is_symlink`. -/
def FileType.isSymlink : FileType → Bool
  | .Symlink _ => true
  | _ => false

/-- Embeds `impl fmt::Display for FileType`. -/
def FileType.display : FileType → String
  | .Regular _ => "regular file"
  | .Directory _ => "directory"
  | .Symlink _ => "symbolic link"

/-- Embeds `struct FileDescriptor`. -/
structure FileDescriptor where
  file_type : FileType
  size : Nat
  links : Nat
  refs : Nat
  deriving Repr, DecidableEq

/-- Embeds `FileDescriptor::new_file`. -/
def FileDescriptor.new_file : FileDescriptor :=
  { file_type := .Regular [], size := 0, links := 1, refs := 0 }

/-- Embeds `FileDescriptor::new_dir(id, parent_id)`. -/
def FileDescriptor.new_dir (id parent_id : Nat) : FileDescriptor :=
  { file_type := .Directory (entIns ".." parent_id (entIns "." id [])),
    size := 0, links := 1, refs := 0 }

/-- Embeds `FileDescriptor::new_symlink(target)`. -/
def FileDescriptor.new_symlink (target : String) : FileDescriptor :=
  { file_type := .Symlink target, size := 0, links := 1, refs := 0 }

/-- Embeds `struct Statx`. -/
structure Statx where
  name : String
  size : Nat
  blocks : Nat
  links : Nat
  refs : Nat
  file_type : String
  deriving Repr, DecidableEq

/-- Embeds `FileDescriptor::stat(name)`: the used-block count filters out the
`0` hole sentinel; a symlink renders its name as `name -> target`. -/
def FileDescriptor.stat (fd : FileDescriptor) (name : String) : Statx :=
  let blocks := match fd.file_type with
    | .Regular blocks_refs => (blocks_refs.filter (fun id => id ≠ 0)).length
    | .Directory _ => 0
    | .Symlink _ => 0
  { name := if fd.file_type.isSymlink then name ++ " -> " ++ fd.file_type.as_symlink else name,
    size := fd.size, blocks := blocks, links := fd.links, refs := fd.refs,
    file_type := fd.file_type.display }

/-- Embeds `struct Vfs`. The block store is a flat byte list; the open-handle
table maps `open_id` to `(inode_id, cursor)`. -/
structure Vfs where
  blocks : List Nat
  fds : List FileDescriptor
  open_fds : List (Nat × Nat × Nat)
  blocks_id : Identity
  fds_id : Identity
  open_fds_id : Identity
  cwd_id : Nat
  cwd : String
  deriving Repr, DecidableEq

/-- Embeds `Vfs::new()`. -/
def Vfs.new : Vfs :=
  { blocks := List.replicate (BLOCK_SIZE * INITIAL_BLOCKS_COUNT) 0,
    fds := [FileDescriptor.new_dir 0 0],
    open_fds := [],
    blocks_id := Identity.new (INITIAL_BLOCKS_COUNT - 1) 1,
    fds_id := Identity.new 0 1,
    open_fds_id := Identity.new 0 0,
    cwd_id := 0,
    cwd := "/" }

/-- Arena access `self.fds[id]` (the source panics out of bounds; the
embedding defaults to a fresh regular file, and every theorem stays on
states where the index is in bounds). -/
def getFd (v : Vfs) (id : Nat) : FileDescriptor :=
  v.fds.getD id FileDescriptor.new_file

/-- Embeds `Vfs::root()`. -/
def Vfs.root (v : Vfs) : FileDescriptor := getFd v 0

/-! ### Path resolver (`Vfs::resolve`, `Vfs::realpath`) -/

/-- Embeds the `loop` in `Vfs::resolve`. The source keeps `segments`
reversed and pops from the back; here the list is forward and processed
head-first — the same traversal. An empty segment list behaves as the
single segment `.` (the source's `pop().unwrap_or(DOT)` followed by an
immediate return). Symlink expansion prepends the target's segments and
restarts from the root when the target is absolute, bounded by
`SYMLINK_RESOLVE_LIMIT` hops. -/
def resolveLoop (v : Vfs) (fd : FileDescriptor) (segments : List String) (count : Nat) :
    Option (FileDescriptor × Nat × Nat) :=
  let entries := fd.file_type.as_dir
  match segments with
  | [] =>
    match entGet entries "." with
    | some next_id =>
      match v.fds[next_id]? with
      | some next_fd => some (next_fd, next_id, (entGet entries "..").getD 0)
      | none => none
    | none => none
  | seg :: rest =>
    match entGet entries seg with
    | some next_id =>
      match v.fds[next_id]? with
      | some next_fd =>
        if rest = [] then
          if seg = ".." then
            some (next_fd, next_id, (entGet next_fd.file_type.as_dir "..").getD 0)
          else if seg = "." then some (next_fd, next_id, (entGet entries "..").getD 0)
          else some (next_fd, next_id, (entGet entries ".").getD 0)
        else
          match next_fd.file_type with
          | .Directory _ => resolveLoop v next_fd rest count
          | .Regular _ => none
          | .Symlink path =>
            if h : SYMLINK_RESOLVE_LIMIT ≤ count then none
            else
              resolveLoop v (if isAbsolute path then v.root else fd)
                (segmentize path ++ rest) (count + 1)
      | none => none
    | none => none
termination_by (SYMLINK_RESOLVE_LIMIT - count, segments.length)
decreasing_by
  · apply Prod.Lex.right
    simp
  · apply Prod.Lex.left
    omega

/-- Embeds `Vfs::resolve(pathname)`. -/
def Vfs.resolve (v : Vfs) (pathname : String) : Option (FileDescriptor × Nat × Nat) :=
  resolveLoop v (if isAbsolute pathname then v.root else getFd v v.cwd_id)
    (segmentize pathname) 0

/-- Embeds the `while let` loop of `Vfs::realpath`: same walk as the
resolver, accumulating canonical segments in `rp` (pop on `..`, splice on a
symlink, clear on an absolute symlink target). -/
def realpathLoop (v : Vfs) (fd : FileDescriptor) (rp : List String)
    (segments : List String) (count : Nat) : Option (List String) :=
  match segments with
  | [] => some rp
  | seg :: rest =>
    let entries := fd.file_type.as_dir
    if seg = "." then realpathLoop v fd rp rest count
    else if seg = ".." then
      realpathLoop v (getFd v ((entGet entries "..").getD 0)) rp.dropLast rest count
    else
      match (entGet entries seg).bind (fun next_id => v.fds[next_id]?) with
      | some next_fd =>
        match next_fd.file_type with
        | .Directory _ => realpathLoop v next_fd (rp ++ [seg]) rest count
        | .Regular _ =>
          if rest = [] then realpathLoop v fd (rp ++ [seg]) rest count else none
        | .Symlink path =>
          if h : SYMLINK_RESOLVE_LIMIT ≤ count then none
          else
            realpathLoop v (if isAbsolute path then v.root else fd)
              (if isAbsolute path then [] else rp) (segmentize path ++ rest) (count + 1)
      | none => none
termination_by (SYMLINK_RESOLVE_LIMIT - count, segments.length)
decreasing_by
  · apply Prod.Lex.right
    simp
  · apply Prod.Lex.right
    simp
  · apply Prod.Lex.right
    simp
  · apply Prod.Lex.right
    simp
  · apply Prod.Lex.left
    omega

/-- Embeds `Vfs::realpath(pathname)`. -/
def Vfs.realpath (v : Vfs) (pathname : String) : Option String :=
  let start : List String × FileDescriptor :=
    if isAbsolute pathname then ([], v.root) else (segmentize v.cwd, getFd v v.cwd_id)
  (realpathLoop v start.2 start.1 (segmentize pathname) 0).map
    (fun rp => "/" ++ String.intercalate "/" rp)

/-! ### Operation engine -/

/-- Inserting `name -> child` into the entries of the directory inode `id`:
embeds `self.fds[id].file_type.as_dir_mut().insert(name, child)`. The source
panics (`as_dir_mut`) when slot `id` is not a directory; a panicking call
produces no successor state, which the embedding renders as the unchanged
state. -/
def insertEntry (v : Vfs) (id : Nat) (name : String) (child : Nat) : Vfs :=
  match (getFd v id).file_type with
  | .Directory es =>
    { v with
      fds := v.fds.set id { getFd v id with file_type := .Directory (entIns name child es) } }
  | _ => v

/-- Removing `name` from the entries of the directory inode `id`: embeds
`self.fds[id].file_type.as_dir_mut().remove(name)`, with the same
panic-as-identity convention as `insertEntry`. -/
def removeEntry (v : Vfs) (id : Nat) (name : String) : Vfs :=
  match (getFd v id).file_type with
  | .Directory es =>
    { v with
      fds := v.fds.set id { getFd v id with file_type := .Directory (entDel name es) } }
  | _ => v

/-- Embeds `Vfs::alloc_fd`: acquire an inode id; push the new descriptor on
`grew`, otherwise overwrite the reused slot. -/
def Vfs.alloc_fd (v : Vfs) (f : Nat → FileDescriptor) : Nat × Vfs :=
  let r := v.fds_id.acquire
  let id := r.1.1
  let v1 := { v with fds_id := r.2 }
  if r.1.2 then (id, { v1 with fds := v1.fds ++ [f id] })
  else (id, { v1 with fds := v1.fds.set id (f id) })

/-- Embeds `Vfs::free_fd`: a no-op unless `links = 0 ∧ refs = 0`; for a
regular file it releases every entry of `blocks_refs` (including `0` hole
sentinels — see claim C1), then releases the inode id. -/
def Vfs.free_fd (v : Vfs) (id : Nat) : Vfs :=
  let fd := getFd v id
  if fd.links > 0 ∨ fd.refs > 0 then v
  else
    let v1 :=
      match fd.file_type with
      | .Regular blocks_refs =>
        { v with blocks_id := blocks_refs.foldl (fun s b => s.release b) v.blocks_id }
      | .Directory _ => v
      | .Symlink _ => v
    { v1 with fds_id := v1.fds_id.release id }

/-- Embeds `Vfs::symlink(path, pathname)`. -/
def Vfs.symlink (v : Vfs) (path pathname : String) : Except String Unit × Vfs :=
  let basename := Vfs.basename pathname
  let dirname := Vfs.dirname pathname
  match v.resolve dirname with
  | some (fd, id, _) =>
    if fd.file_type.isDir = false then
      (.error ("symlink: cannot create symlink " ++ sQuote ++ pathname ++ sQuote ++
        ": Not a directory"), v)
    else
      let entries := fd.file_type.as_dir
      if (entGet entries basename).isSome ∨ basename = "" then
        (.error ("symlink: cannot create symlink " ++ sQuote ++ pathname ++ sQuote ++
          ": File exists"), v)
      else
        let r := v.alloc_fd (fun _ => FileDescriptor.new_symlink path)
        (.ok (), insertEntry r.2 id basename r.1)
  | none =>
    (.error ("symlink: cannot create symlink " ++ sQuote ++ pathname ++ sQuote ++
      ": No such file or directory"), v)

/-- Embeds `Vfs::cd(pathname)`; the source's `realpath(..).unwrap()` is
embedded as `getD` of the old `cwd` (on states the theorems touch, `realpath`
succeeds whenever `resolve` did, so the default is never taken). -/
def Vfs.cd (v : Vfs) (pathname : String) : Except String Unit × Vfs :=
  let dirname := pathname ++ "/" ++ "."
  match v.resolve dirname with
  | some (fd, id, _) =>
    if fd.file_type.isDir = false then
      (.error ("cd: not a directory: " ++ pathname), v)
    else (.ok (), { v with cwd := (v.realpath dirname).getD v.cwd, cwd_id := id })
  | none => (.error ("cd: no such file or directory: " ++ pathname), v)

/-- Embeds `Vfs::mkdir(pathname)`. -/
def Vfs.mkdir (v : Vfs) (pathname0 : String) : Except String Unit × Vfs :=
  let pathname := trimTrailingSep pathname0
  let basename := Vfs.basename pathname
  let dirname := Vfs.dirname pathname ++ "/" ++ "."
  match v.resolve dirname with
  | some (fd, parent_id, _) =>
    if fd.file_type.isDir = false then
      (.error ("mkdir: cannot create directory " ++ sQuote ++ dirname ++ sQuote ++
        ": Not a directory"), v)
    else
      let entries := fd.file_type.as_dir
      if (entGet entries basename).isSome ∨ basename = "" then
        (.error ("mkdir: cannot create " ++ sQuote ++ pathname ++ sQuote ++
          ": File exists"), v)
      else
        let r := v.alloc_fd (fun id => FileDescriptor.new_dir id parent_id)
        (.ok (), insertEntry r.2 parent_id basename r.1)
  | none =>
    (.error ("mkdir: cannot create directory " ++ sQuote ++ pathname ++ sQuote ++
      ": No such file or directory"), v)

/-- Embeds `Vfs::rmdir(pathname)`: refuse the root, non-directories, and
directories with more than the two `.`/`..` entries; then remove the entry of
`id` from the parent, call `free_fd`, and reset `cwd_id` to `0` when the
removed directory was the working directory. -/
def Vfs.rmdir (v : Vfs) (pathname : String) : Except String Unit × Vfs :=
  match v.resolve pathname with
  | some (fd, id, parent_id) =>
    if id = 0 then
      (.error ("rmdir: cannot remove " ++ sQuote ++ pathname ++ sQuote ++
        ": Is a root directory"), v)
    else if fd.file_type.isDir = false then
      (.error ("rmdir: failed to remove " ++ sQuote ++ pathname ++ sQuote ++
        ": Not a directory"), v)
    else if 2 < fd.file_type.as_dir.length then
      (.error ("rmdir: failed to remove " ++ sQuote ++ pathname ++ sQuote ++
        ": Directory not empty"), v)
    else
      let v1 :=
        match (getFd v parent_id).file_type with
        | .Directory entries =>
          match (entries.find? (fun (e : String × Nat) => e.2 == id)).map
              (fun (e : String × Nat) => e.1) with
          | some name => removeEntry v parent_id name
          | none => v
        | _ => v
      let v2 := v1.free_fd id
      let v3 := if id = v2.cwd_id then { v2 with cwd_id := 0 } else v2
      (.ok (), v3)
  | none =>
    (.error ("rmdir: cannot rmdir " ++ sQuote ++ pathname ++ sQuote ++
      ": No such file or directory"), v)

/-- Embeds `Vfs::stat(pathname)`. -/
def Vfs.stat (v : Vfs) (pathname : String) : Except String Statx :=
  match v.resolve pathname with
  | some (fd, _, _) => .ok (fd.stat pathname)
  | none =>
    .error ("stat: cannot statx " ++ sQuote ++ pathname ++ sQuote ++
      ": No such file or directory")

/-- Embeds `Vfs::create(pathname)`: silent success when the basename already
exists in the parent or is empty. -/
def Vfs.create (v : Vfs) (pathname : String) : Except String Unit × Vfs :=
  let basename := Vfs.basename pathname
  let dirname := Vfs.dirname pathname ++ "/" ++ "."
  match v.resolve dirname with
  | some (fd, id, _) =>
    if fd.file_type.isDir = false then
      (.error ("create: cannot create " ++ sQuote ++ dirname ++ sQuote ++
        ": Not a directory"), v)
    else
      let entries := fd.file_type.as_dir
      if (entGet entries basename).isSome ∨ basename = "" then (.ok (), v)
      else
        let r := v.alloc_fd (fun _ => FileDescriptor.new_file)
        (.ok (), insertEntry r.2 id basename r.1)
  | none =>
    (.error ("create: cannot create " ++ sQuote ++ pathname ++ sQuote ++
      ": No such file or directory"), v)

/-- Embeds `Vfs::link(pn1, pn2)`. -/
def Vfs.link (v : Vfs) (pn1 pn2 : String) : Except String Unit × Vfs :=
  let basename := Vfs.basename pn2
  let dirname := Vfs.dirname pn2
  match v.resolve pn1, v.resolve dirname with
  | some (fd1, id1, _), some (fd2, id2, _) =>
    if fd1.file_type.isDir then
      (.error ("link: cannot create link " ++ sQuote ++ pn2 ++ sQuote ++ " to " ++
        sQuote ++ pn1 ++ sQuote ++ ": Operation not permitted"), v)
    else if fd2.file_type.isDir = false then
      (.error ("link: cannot link " ++ sQuote ++ pn2 ++ sQuote ++ " to " ++
        sQuote ++ pn1 ++ sQuote ++ ": Not a directory"), v)
    else
      let entries := fd2.file_type.as_dir
      if (entGet entries basename).isSome ∨ basename = "" then
        (.error ("link: cannot link " ++ sQuote ++ pn2 ++ sQuote ++ " to " ++
          sQuote ++ pn1 ++ sQuote ++ ": File exists"), v)
      else
        let v1 := insertEntry v id2 basename id1
        let fd1m := getFd v1 id1
        (.ok (), { v1 with fds := v1.fds.set id1 { fd1m with links := fd1m.links + 1 } })
  | _, _ =>
    (.error ("link: cannot link " ++ sQuote ++ pn2 ++ sQuote ++ " to " ++
      sQuote ++ pn1 ++ sQuote ++ ": No such file or directory"), v)

/-- Embeds `Vfs::unlink(pathname)`: remove the basename from the parent,
decrement `links`, then `free_fd`. -/
def Vfs.unlink (v : Vfs) (pathname : String) : Except String Unit × Vfs :=
  match v.resolve pathname with
  | some (fd, id, parent_id) =>
    if fd.file_type.isDir then
      (.error ("unlink: cannot unlink " ++ sQuote ++ pathname ++ sQuote ++
        ": Is a directory"), v)
    else
      let v1 := removeEntry v parent_id (Vfs.basename pathname)
      let fdm := getFd v1 id
      let v2 := { v1 with fds := v1.fds.set id { fdm with links := fdm.links - 1 } }
      (.ok (), v2.free_fd id)
  | none =>
    (.error ("unlink: cannot unlink " ++ sQuote ++ pathname ++ sQuote ++
      ": No such file or directory"), v)

/-- Embeds `Vfs::open(pathname)` (named `openFd`: `open` is a Lean keyword):
regular files only; increments `refs` and registers a fresh handle with
cursor `0`. -/
def Vfs.openFd (v : Vfs) (pathname : String) : Except String Nat × Vfs :=
  match v.resolve pathname with
  | some (fd, id, _) =>
    if fd.file_type.isFile = false then
      (.error ("open: cannot open " ++ sQuote ++ pathname ++ sQuote ++
        ": Operation not permitted"), v)
    else
      let fdm := getFd v id
      let v1 := { v with fds := v.fds.set id { fdm with refs := fdm.refs + 1 } }
      let r := v1.open_fds_id.acquire
      let oid := r.1.1
      (.ok oid,
        { v1 with open_fds_id := r.2, open_fds := mapIns oid (id, 0) v1.open_fds })
  | none =>
    (.error ("open: cannot open " ++ sQuote ++ pathname ++ sQuote ++
      ": No such file or directory"), v)

/-- Embeds `Vfs::close(oid)`: drop the handle, release the handle id,
decrement `refs`, attempt `free_fd`. -/
def Vfs.close (v : Vfs) (oid : Nat) : Except String Unit × Vfs :=
  match mapGet v.open_fds oid with
  | some (id, _) =>
    let v1 :=
      { v with open_fds := mapDel oid v.open_fds,
               open_fds_id := v.open_fds_id.release oid }
    let fdm := getFd v1 id
    let v2 := { v1 with fds := v1.fds.set id { fdm with refs := fdm.refs - 1 } }
    (.ok (), v2.free_fd id)
  | none => (.error ("close: invalid file descriptor: " ++ toString oid), v)

/-- Embeds `Vfs::seek(oid, offset)`: clamp a stale cursor to the file size,
then require `offset ≤ size`. The clamp persists even when the offset check
fails, exactly as in the source. -/
def Vfs.seek (v : Vfs) (oid offset : Nat) : Except String Unit × Vfs :=
  match mapGet v.open_fds oid with
  | some (id, cursor) =>
    let fd := getFd v id
    let cursor1 := if fd.size < cursor then fd.size else cursor
    if fd.size < offset then
      (.error ("seek: invalid offset: " ++ toString offset),
        { v with open_fds := mapIns oid (id, cursor1) v.open_fds })
    else (.ok (), { v with open_fds := mapIns oid (id, offset) v.open_fds })
  | none => (.error ("seek: invalid file descriptor: " ++ toString oid), v)

/-- Writing `data` into the flat block store starting at byte `pos`: embeds
`self.blocks[from..to].copy_from_slice(..)` byte by byte. -/
def copyBytes (l : List Nat) (pos : Nat) : List Nat → List Nat
  | [] => l
  | b :: bs => copyBytes (l.set pos b) (pos + 1) bs

/-- Embeds the `while !rest.is_empty()` loop of `Vfs::write`. State threaded:
the byte store, the block allocator, the file's `blocks_refs`, and the
cursor. A hole or missing slot at the target logical block acquires a fresh
block id (on `grew`, the source's `resize(new_len + BLOCK_SIZE)` where
`new_len = len + BLOCK_SIZE` appends two blocks of zeros). -/
def writeLoop (blocks : List Nat) (blocks_id : Identity) (blocks_refs : List Nat)
    (cursor : Nat) (rest : List Nat) : List Nat × Identity × List Nat × Nat :=
  if hrest : rest = [] then (blocks, blocks_id, blocks_refs, cursor)
  else
    let i := cursor / BLOCK_SIZE
    let st :=
      match blocks_refs.getD i 0 with
      | 0 =>
        let r := blocks_id.acquire
        let bid := r.1.1
        let blocks1 :=
          if r.1.2 then blocks ++ List.replicate (BLOCK_SIZE + BLOCK_SIZE) 0 else blocks
        let refs1 := if blocks_refs.length = i then blocks_refs ++ [bid]
          else blocks_refs.set i bid
        (blocks1, r.2, refs1, bid)
      | bid => (blocks, blocks_id, blocks_refs, bid)
    let offset := cursor % BLOCK_SIZE
    let n := min (BLOCK_SIZE - offset) rest.length
    let blocks2 := copyBytes st.1 (st.2.2.2 * BLOCK_SIZE + offset) (rest.take n)
    writeLoop blocks2 st.2.1 st.2.2.1 (cursor + n) (rest.drop n)
termination_by rest.length
decreasing_by
  have hb : 0 < BLOCK_SIZE - cursor % BLOCK_SIZE := by
    have := Nat.mod_lt cursor (show 0 < BLOCK_SIZE by decide)
    omega
  have hlen : 0 < rest.length := List.length_pos.mpr hrest
  simp only [List.length_drop]
  omega

/-- Embeds `Vfs::write(oid, data)`. -/
def Vfs.write (v : Vfs) (oid : Nat) (data : List Nat) : Except String Nat × Vfs :=
  match mapGet v.open_fds oid with
  | some (id, cursor) =>
    let fd := getFd v id
    match fd.file_type with
    | .Regular blocks_refs =>
      let r := writeLoop v.blocks v.blocks_id blocks_refs cursor data
      (.ok data.length,
        { v with
          blocks := r.1, blocks_id := r.2.1,
          fds := v.fds.set id
            { fd with file_type := .Regular r.2.2.1, size := max fd.size r.2.2.2 },
          open_fds := mapIns oid (id, r.2.2.2) v.open_fds })
    | _ => (.error "error: fd not a file", v)
  | none => (.error ("write: invalid file descriptor: " ++ toString oid), v)

/-- Embeds the `while rest > 0` loop of `Vfs::read`: concatenate block
slices into `data`, advancing the cursor. -/
def readLoop (blocks : List Nat) (blocks_refs : List Nat) (cursor rest : Nat)
    (data : List Nat) : List Nat × Nat :=
  if h : rest = 0 then (data, cursor)
  else
    let i := cursor / BLOCK_SIZE
    let block_ref := blocks_refs.getD i 0
    let offset := cursor % BLOCK_SIZE
    let n := min (BLOCK_SIZE - offset) rest
    let chunk := (blocks.drop (block_ref * BLOCK_SIZE + offset)).take n
    readLoop blocks blocks_refs (cursor + n) (rest - n) (data ++ chunk)
termination_by rest
decreasing_by
  have hb : 0 < BLOCK_SIZE - cursor % BLOCK_SIZE := by
    have := Nat.mod_lt cursor (show 0 < BLOCK_SIZE by decide)
    omega
  omega

/-- Embeds `Vfs::read(oid, size)`; note the unsigned subtraction
`fd.size - cursor` guarded by claim C5's invariant. The source's misnamed
error text (`write: ...`) is reproduced verbatim. -/
def Vfs.read (v : Vfs) (oid size : Nat) : Except String (List Nat) × Vfs :=
  match mapGet v.open_fds oid with
  | some (id, cursor) =>
    let fd := getFd v id
    match fd.file_type with
    | .Regular blocks_refs =>
      let rest := min size (fd.size - cursor)
      let r := readLoop v.blocks blocks_refs cursor rest []
      (.ok r.1, { v with open_fds := mapIns oid (id, r.2) v.open_fds })
    | _ => (.error "error: fd not a file", v)
  | none => (.error ("write: invalid file descriptor: " ++ toString oid), v)

/-- Embeds `Vec::resize(n, 0)`. -/
def listResize (l : List Nat) (n : Nat) : List Nat :=
  l.take n ++ List.replicate (n - l.length) 0

/-- Zero-fill `n` bytes of the store from `pos`: embeds
`self.blocks[from..to].fill(0)`. -/
def fillZeros (l : List Nat) (pos : Nat) : Nat → List Nat
  | 0 => l
  | n + 1 => fillZeros (l.set pos 0) (pos + 1) n

/-- Embeds `Vfs::truncate(pathname, size)`: on shrink, drain the dropped
block refs into the block allocator (including `0` holes — see claim C1)
and clamp the cursors of open handles when `refs != 0`; on grow, pad
`blocks_refs` with holes and zero-fill the tail of the last real block. -/
def Vfs.truncate (v : Vfs) (pathname : String) (size : Nat) : Except String Unit × Vfs :=
  match v.resolve pathname with
  | some (fd0, id, _) =>
    if fd0.file_type.isFile = false then
      (.error ("truncate: cannot truncate " ++ sQuote ++ pathname ++ sQuote ++
        ": Operation not permitted"), v)
    else
      let fd := getFd v id
      let blocks_refs := fd.file_type.as_file
      if size < fd.size then
        let i := (size + BLOCK_SIZE - 1) / BLOCK_SIZE
        let drained := blocks_refs.drop i
        let blocks_id1 := drained.foldl (fun s b => s.release b) v.blocks_id
        let open_fds1 :=
          if fd.refs ≠ 0 then
            v.open_fds.map (fun e =>
              if e.2.1 = id then (e.1, e.2.1, min e.2.2 size) else e)
          else v.open_fds
        (.ok (),
          { v with
            blocks_id := blocks_id1, open_fds := open_fds1,
            fds := v.fds.set id
              { fd with file_type := .Regular (blocks_refs.take i), size := size } })
      else if fd.size < size then
        let new_len := (size + BLOCK_SIZE - 1) / BLOCK_SIZE
        let refs1 := listResize blocks_refs new_len
        let j := fd.size / BLOCK_SIZE
        let block_ref := refs1.getD j 0
        let blocks1 :=
          if block_ref ≠ 0 then
            let offset := fd.size % BLOCK_SIZE
            let n := min (BLOCK_SIZE - offset) (size - fd.size)
            fillZeros v.blocks (block_ref * BLOCK_SIZE + offset) n
          else v.blocks
        (.ok (),
          { v with
            blocks := blocks1,
            fds := v.fds.set id { fd with file_type := .Regular refs1, size := size } })
      else (.ok (), { v with fds := v.fds.set id { fd with size := size } })
  | none =>
    (.error ("truncate: cannot truncate " ++ sQuote ++ pathname ++ sQuote ++
      ": No such file or directory"), v)

/-! ### Concrete traces for the literal-scenario claims -/

/-- State after `create /f` on a fresh VFS. -/
def vfsAfterCreateF : Vfs := ((Vfs.new).create "/f").2

/-- State after `create /f; truncate /f 1000`. -/
def vfsAfterTruncF : Vfs := (vfsAfterCreateF.truncate "/f" 1000).2

/-- State after `create /f; truncate /f 1000; unlink /f`. -/
def vfsAfterUnlinkF : Vfs := (vfsAfterTruncF.unlink "/f").2

/-- State after `symlink /loop /loop` on a fresh VFS. -/
def vfsLoop : Vfs := ((Vfs.new).symlink "/loop" "/loop").2

/-- State after `mkdir /a` on a fresh VFS. -/
def vfsAfterMkdirA : Vfs := ((Vfs.new).mkdir "/a").2

/-- State after `mkdir /a; rmdir /a`. -/
def vfsAfterRmdirA : Vfs := (vfsAfterMkdirA.rmdir "/a").2

theorem setInsert_zero_range' (n : Nat) :
    setInsert 0 (List.range' 1 n) = 0 :: List.range' 1 n := by
  cases n with
  | zero => rfl
  | succ m => rw [List.range'_succ]; rfl

/-- Claim C1 (code bug): the claimed invariant "block id 0 never enters the
block allocator's free set" is broken by the source: `free_fd` (reached here
through `unlink`) releases every entry of `blocks_refs` including the `0`
hole sentinels. On the reachable trace `create /f; truncate /f 1000;
unlink /f` the file's `blocks_refs` is `[0, 0]` (two holes), the unlink
succeeds, and `0` ends up in the block allocator's free set. -/
theorem c1_block_zero_enters_free_set :
    (vfsAfterTruncF.unlink "/f").1 = .ok () ∧
    (getFd vfsAfterTruncF 1).file_type = .Regular [0, 0] ∧
    0 ∈ vfsAfterUnlinkF.blocks_id.free := by
  refine ⟨?_, ?_, ?_⟩ <;>
  simp [vfsAfterUnlinkF, vfsAfterTruncF, vfsAfterCreateF, Vfs.new, Vfs.create,
    Vfs.truncate, Vfs.unlink, Vfs.resolve, resolveLoop, Vfs.root, getFd,
    Vfs.alloc_fd, Vfs.free_fd, insertEntry, removeEntry, Identity.new, Identity.acquire,
    Identity.release, setInsert_zero_range', mem_setInsert, FileDescriptor.new_file,
    FileDescriptor.new_dir, FileType.as_dir, FileType.as_file, FileType.isDir,
    FileType.isFile, entGet, entIns, entDel, segmentize, segChars, Vfs.dirname,
    Vfs.basename, lastSepIdx, isAbsolute, listResize, fillZeros, BLOCK_SIZE]

/-- Claim C2 (code bug): `rmdir` does not return the removed directory's
inode id to the inode allocator. The directory is created with `links = 1`
and `rmdir` never decrements `links`, so its `free_fd` call is a guaranteed
no-op. On the reachable trace `mkdir /a; rmdir /a` the rmdir succeeds, yet
the inode allocator's free set stays empty, the high-water mark stays `2`,
and the next allocation (`mkdir /b`) takes fresh id `2` instead of reusing
`1`. -/
theorem c2_rmdir_leaks_inode_id :
    (vfsAfterMkdirA.rmdir "/a").1 = .ok () ∧
    vfsAfterRmdirA.fds_id.free = [] ∧
    vfsAfterRmdirA.fds_id.next = 2 ∧
    (getFd vfsAfterRmdirA 1).links = 1 ∧
    entGet (getFd ((vfsAfterRmdirA.mkdir "/b").2) 0).file_type.as_dir "b" = some 2 := by
  refine ⟨?_, ?_, ?_, ?_, ?_⟩ <;>
  simp [vfsAfterRmdirA, vfsAfterMkdirA, Vfs.new, Vfs.mkdir, Vfs.rmdir,
    Vfs.resolve, resolveLoop, Vfs.root, getFd, Vfs.alloc_fd, Vfs.free_fd,
    insertEntry, removeEntry, Identity.new, Identity.acquire, Identity.release,
    FileDescriptor.new_dir, FileType.as_dir, FileType.isDir, entGet, entIns,
    entDel, List.find?, segmentize, segChars, Vfs.dirname, Vfs.basename,
    lastSepIdx, isAbsolute, trimTrailingSep]

/-- Claim C3 counterexample: after `symlink /loop /loop` on a fresh VFS,
`stat /loop` does **not** fail — the resolver returns a final-segment
symlink without expanding it, so the claimed NotFound never happens. -/
theorem c3_stat_loop_not_error :
    ((Vfs.new).symlink "/loop" "/loop").1 = .ok () ∧
    ∀ e, vfsLoop.stat "/loop" ≠ Except.error e := by
  constructor
  · simp [vfsLoop, Vfs.new, Vfs.symlink, Vfs.resolve, resolveLoop, Vfs.root,
      getFd, Vfs.alloc_fd, insertEntry, removeEntry, Identity.new, Identity.acquire,
      FileDescriptor.new_dir, FileDescriptor.new_symlink, FileType.as_dir,
      FileType.isDir, entGet, entIns, segmentize, segChars, Vfs.dirname,
      Vfs.basename, lastSepIdx, isAbsolute]
  · intro e
    simp [vfsLoop, Vfs.new, Vfs.symlink, Vfs.stat, Vfs.resolve, resolveLoop,
      Vfs.root, getFd, Vfs.alloc_fd, insertEntry, removeEntry, Identity.new, Identity.acquire,
      FileDescriptor.new_dir, FileDescriptor.new_symlink, FileType.as_dir,
      FileType.isDir, entGet, entIns, segmentize, segChars, Vfs.dirname,
      Vfs.basename, lastSepIdx, isAbsolute]

/-- Claim C3 as amended: after `symlink /loop /loop`, `stat /loop` succeeds
and reports the symlink itself (`/loop -> /loop`), because resolution does
not expand a symlink in final position; the 8-hop limit aborts resolution
only when the self-referential symlink must be expanded as a non-final
segment, e.g. `/loop/.` resolves to NotFound. -/
theorem c3_stat_loop_amended :
    vfsLoop.stat "/loop" =
      .ok { name := "/loop -> /loop", size := 0, blocks := 0, links := 1,
            refs := 0, file_type := "symbolic link" } ∧
    vfsLoop.resolve "/loop/." = none := by
  constructor <;>
  simp [vfsLoop, Vfs.new, Vfs.symlink, Vfs.stat, FileDescriptor.stat, Vfs.resolve,
    resolveLoop, Vfs.root, getFd, Vfs.alloc_fd, insertEntry, removeEntry, Identity.new,
    Identity.acquire, FileDescriptor.new_dir, FileDescriptor.new_symlink,
    FileType.as_dir, FileType.isDir, FileType.isSymlink, FileType.as_symlink,
    FileType.display, entGet, entIns, segmentize, segChars, Vfs.dirname,
    Vfs.basename, lastSepIdx, isAbsolute, SYMLINK_RESOLVE_LIMIT]

/-- The `Statx` value reported for `/f` after `create /f; truncate /f 1000`. -/
def statxTruncF : Statx :=
  { name := "/f", size := 1000, blocks := 0, links := 1, refs := 0,
    file_type := "regular file" }

theorem stat_truncF_eval : vfsAfterTruncF.stat "/f" = .ok statxTruncF := by
  simp [statxTruncF, vfsAfterTruncF, vfsAfterCreateF, Vfs.new, Vfs.create,
    Vfs.truncate, Vfs.stat, FileDescriptor.stat, Vfs.resolve, resolveLoop,
    Vfs.root, getFd, Vfs.alloc_fd, insertEntry, removeEntry, Identity.new, Identity.acquire,
    FileDescriptor.new_dir, FileDescriptor.new_file, FileType.as_dir,
    FileType.as_file, FileType.isDir, FileType.isFile, FileType.isSymlink,
    FileType.display, entGet, entIns, segmentize, segChars, Vfs.dirname,
    Vfs.basename, lastSepIdx, isAbsolute, listResize, fillZeros, BLOCK_SIZE]

/-- Claim C4 counterexample: after `create /f; truncate /f 1000` on a fresh
VFS, `stat /f` does not report `blocks = 2`: growth by truncate pads
`blocks_refs` with `0` holes and allocates nothing, and `stat` counts only
the non-zero block refs. -/
theorem c4_trunc_blocks_not_two :
    ((Vfs.new).create "/f").1 = .ok () ∧
    (vfsAfterCreateF.truncate "/f" 1000).1 = .ok () ∧
    ∀ s, vfsAfterTruncF.stat "/f" = .ok s → s.blocks ≠ 2 := by
  refine ⟨?_, ?_, ?_⟩
  · simp [vfsAfterCreateF, Vfs.new, Vfs.create, Vfs.resolve, resolveLoop,
      Vfs.root, getFd, Vfs.alloc_fd, insertEntry, removeEntry, Identity.new, Identity.acquire,
      FileDescriptor.new_dir, FileDescriptor.new_file, FileType.as_dir,
      FileType.isDir, entGet, entIns, segmentize, segChars, Vfs.dirname,
      Vfs.basename, lastSepIdx, isAbsolute]
  · simp [vfsAfterTruncF, vfsAfterCreateF, Vfs.new, Vfs.create, Vfs.truncate,
      Vfs.resolve, resolveLoop, Vfs.root, getFd, Vfs.alloc_fd, insertEntry, removeEntry,
      Identity.new, Identity.acquire, FileDescriptor.new_dir,
      FileDescriptor.new_file, FileType.as_dir, FileType.as_file, FileType.isDir,
      FileType.isFile, entGet, entIns, segmentize, segChars, Vfs.dirname,
      Vfs.basename, lastSepIdx, isAbsolute, listResize, fillZeros, BLOCK_SIZE]
  · intro s hs
    rw [stat_truncF_eval] at hs
    have hinj : statxTruncF = s := by
      injection hs
    rw [← hinj]
    decide

/-- Claim C4 as amended: after `create /f; truncate /f 1000`, `stat /f`
succeeds and reports `size = 1000` and `blocks = 0` — both padded blocks are
holes (`0` refs), and `stat` counts only non-zero block refs. -/
theorem c4_trunc_stat_amended :
    vfsAfterTruncF.stat "/f" = .ok statxTruncF ∧ statxTruncF.size = 1000 ∧
    statxTruncF.blocks = 0 :=
  ⟨stat_truncF_eval, rfl, rfl⟩

/-! ### General association-list and arena lemmas -/

theorem mapGet_mapIns_self {β : Type} (k : Nat) (x : β) (l : List (Nat × β)) :
    mapGet (mapIns k x l) k = some x := by
  induction l with
  | nil => simp [mapIns, mapGet]
  | cons e es ih =>
    by_cases h : e.1 = k
    · simp [mapIns, mapGet, h]
    · simp [mapIns, mapGet, h, ih]

theorem mapGet_mapIns_ne {β : Type} (k j : Nat) (x : β) (l : List (Nat × β))
    (hne : k ≠ j) : mapGet (mapIns k x l) j = mapGet l j := by
  induction l with
  | nil => simp [mapIns, mapGet, hne]
  | cons e es ih =>
    by_cases h : e.1 = k
    · simp [mapIns, mapGet, h, hne]
    · simp only [mapIns, if_neg h]
      by_cases h2 : e.1 = j
      · simp [mapGet, h2]
      · simp [mapGet, h2, ih]

theorem getD_set_self {α : Type} (l : List α) (i : Nat) (a d : α)
    (h : i < l.length) : (l.set i a).getD i d = a := by
  induction l generalizing i with
  | nil => simp at h
  | cons x xs ih =>
    cases i with
    | zero => rfl
    | succ j =>
      simp only [List.set_cons_succ, List.getD_cons_succ]
      exact ih j (by simpa using h)

theorem getD_set_ne {α : Type} (l : List α) (i j : Nat) (a d : α)
    (h : i ≠ j) : (l.set i a).getD j d = l.getD j d := by
  induction l generalizing i j with
  | nil => simp [List.set]
  | cons x xs ih =>
    cases i with
    | zero =>
      cases j with
      | zero => exact absurd rfl h
      | succ j2 => simp [List.set, List.getD]
    | succ i2 =>
      cases j with
      | zero => simp [List.set, List.getD]
      | succ j2 =>
        simp only [List.set_cons_succ, List.getD_cons_succ]
        exact ih i2 j2 (by omega)

/-! ### Claim C8: write semantics -/

theorem writeLoop_cursor_aux (len : Nat) : ∀ (rest : List Nat), rest.length ≤ len →
    ∀ blocks bi brs cursor,
      (writeLoop blocks bi brs cursor rest).2.2.2 = cursor + rest.length := by
  induction len with
  | zero =>
    intro rest hlen blocks bi brs cursor
    have : rest = [] := List.eq_nil_of_length_eq_zero (by omega)
    subst this
    simp [writeLoop]
  | succ m ih =>
    intro rest hlen blocks bi brs cursor
    by_cases hrest : rest = []
    · subst hrest; simp [writeLoop]
    · rw [writeLoop, dif_neg hrest]
      dsimp only
      have h1 : 0 < rest.length := List.length_pos.mpr hrest
      have hb : 0 < BLOCK_SIZE - cursor % BLOCK_SIZE := by
        have := Nat.mod_lt cursor (show 0 < BLOCK_SIZE by decide)
        omega
      have hle : (rest.drop ((BLOCK_SIZE - cursor % BLOCK_SIZE) ⊓ rest.length)).length ≤ m := by
        simp only [List.length_drop]
        omega
      rw [ih _ hle]
      simp only [List.length_drop]
      omega

theorem writeLoop_cursor (blocks : List Nat) (bi : Identity) (brs : List Nat)
    (cursor : Nat) (rest : List Nat) :
    (writeLoop blocks bi brs cursor rest).2.2.2 = cursor + rest.length :=
  writeLoop_cursor_aux rest.length rest (le_refl _) blocks bi brs cursor

/-- Claim C8: for a valid open handle `(oid, (id, cur))` on a regular file
(in-bounds inode slot, cursor within the size, size within the block-ref
capacity — the conditions that hold on every reachable state and keep the
source panic-free), `write` returns `data.len()`, afterwards the handle's
cursor equals its pre-call value plus `data.len()`, and the file's size
equals `max` of the pre-call size and the post-call cursor. -/
theorem c8_write_semantics (v : Vfs) (oid id cur : Nat) (data brs : List Nat)
    (hh : mapGet v.open_fds oid = some (id, cur))
    (hid : id < v.fds.length)
    (hreg : (getFd v id).file_type = .Regular brs)
    (hcur : cur ≤ (getFd v id).size)
    (hsz : (getFd v id).size ≤ BLOCK_SIZE * brs.length) :
    (v.write oid data).1 = .ok data.length ∧
    mapGet ((v.write oid data).2).open_fds oid = some (id, cur + data.length) ∧
    (getFd ((v.write oid data).2) id).size =
      max (getFd v id).size (cur + data.length) := by
  refine ⟨?_, ?_, ?_⟩
  · simp [Vfs.write, hh, hreg]
  · simp only [Vfs.write, hh, hreg]
    rw [mapGet_mapIns_self, writeLoop_cursor]
  · simp only [Vfs.write, hh, hreg]
    simp only [getFd]
    rw [getD_set_self _ _ _ _ hid, writeLoop_cursor]

/-- Witness for C8: the state after `create /f; open /f` has handle
`0 -> (1, 0)` on the empty regular file `1`; writing the two bytes `[104,
105]` returns `2`, moves the cursor to `2`, and sets the size to `2`. -/
theorem c8_write_semantics_witness :
    (mapGet ((vfsAfterCreateF.openFd "/f").2).open_fds 0 = some (1, 0) ∧
      1 < ((vfsAfterCreateF.openFd "/f").2).fds.length ∧
      (getFd ((vfsAfterCreateF.openFd "/f").2) 1).file_type = .Regular [] ∧
      (0 : Nat) ≤ (getFd ((vfsAfterCreateF.openFd "/f").2) 1).size ∧
      (getFd ((vfsAfterCreateF.openFd "/f").2) 1).size ≤ BLOCK_SIZE * ([] : List Nat).length) ∧
    ((((vfsAfterCreateF.openFd "/f").2).write 0 [104, 105]).1 = .ok 2 ∧
      mapGet (((((vfsAfterCreateF.openFd "/f").2).write 0 [104, 105])).2).open_fds 0 =
        some (1, 0 + 2) ∧
      (getFd (((((vfsAfterCreateF.openFd "/f").2).write 0 [104, 105])).2) 1).size =
        max (getFd ((vfsAfterCreateF.openFd "/f").2) 1).size (0 + 2)) := by
  have hv : (vfsAfterCreateF.openFd "/f").2.open_fds = [(0, 1, 0)] ∧
      (vfsAfterCreateF.openFd "/f").2.fds.length = 2 ∧
      (getFd ((vfsAfterCreateF.openFd "/f").2) 1).file_type = .Regular [] ∧
      (getFd ((vfsAfterCreateF.openFd "/f").2) 1).size = 0 := by
    refine ⟨?_, ?_, ?_, ?_⟩ <;>
    simp [vfsAfterCreateF, Vfs.new, Vfs.create, Vfs.openFd, Vfs.resolve,
      resolveLoop, Vfs.root, getFd, Vfs.alloc_fd, insertEntry, removeEntry, Identity.new,
      Identity.acquire, FileDescriptor.new_dir, FileDescriptor.new_file,
      FileType.as_dir, FileType.isDir, FileType.isFile, entGet, entIns, mapIns,
      segmentize, segChars, Vfs.dirname, Vfs.basename, lastSepIdx, isAbsolute]
  have h1 : mapGet ((vfsAfterCreateF.openFd "/f").2).open_fds 0 = some (1, 0) := by
    rw [hv.1]; rfl
  have h2 : 1 < ((vfsAfterCreateF.openFd "/f").2).fds.length := by
    rw [hv.2.1]; omega
  have h4 : (0 : Nat) ≤ (getFd ((vfsAfterCreateF.openFd "/f").2) 1).size :=
    Nat.zero_le _
  have h5 : (getFd ((vfsAfterCreateF.openFd "/f").2) 1).size ≤
      BLOCK_SIZE * ([] : List Nat).length := by
    rw [hv.2.2.2]; exact Nat.zero_le _
  exact ⟨⟨h1, h2, hv.2.2.1, h4, h5⟩,
    c8_write_semantics _ 0 1 0 [104, 105] [] h1 h2 hv.2.2.1 h4 h5⟩

/-! ### Claim C6: unlink while open -/

theorem unlink_open_core (v : Vfs) (p : String) (fd : FileDescriptor)
    (id parent_id : Nat) (brs : List Nat)
    (hres : v.resolve p = some (fd, id, parent_id))
    (hreg : fd.file_type = .Regular brs)
    (hlinks : fd.links = 1) (hrefs0 : 0 < fd.refs)
    (hpar : parent_id ≠ id) (hid : id < v.fds.length) (hgot : getFd v id = fd) :
    (v.unlink p).1 = .ok () ∧
    ((v.unlink p).2).open_fds = v.open_fds ∧
    ((v.unlink p).2).fds_id = v.fds_id ∧
    id < ((v.unlink p).2).fds.length ∧
    getFd ((v.unlink p).2) id = { fd with links := 0 } := by
  have hdirne : fd.file_type.isDir = false := by rw [hreg]; rfl
  have hproj : (removeEntry v parent_id (Vfs.basename p)).open_fds = v.open_fds ∧
      (removeEntry v parent_id (Vfs.basename p)).fds_id = v.fds_id ∧
      (removeEntry v parent_id (Vfs.basename p)).fds.length = v.fds.length := by
    rw [removeEntry]
    split <;> simp
  have hmid : getFd (removeEntry v parent_id (Vfs.basename p)) id = fd := by
    rw [removeEntry]
    split
    · simp only [getFd]
      rw [getD_set_ne _ _ _ _ _ hpar]
      exact hgot
    · exact hgot
  have hnoop : ∀ w : Vfs, getFd w id = { fd with links := 0 } → w.free_fd id = w := by
    intro w hw
    rw [Vfs.free_fd]
    have : ({ fd with links := 0 } : FileDescriptor).links > 0 ∨
        ({ fd with links := 0 } : FileDescriptor).refs > 0 := by
      right; exact hrefs0
    rw [hw, if_pos this]
  rw [Vfs.unlink, hres]
  simp only [hdirne, Bool.false_eq_true, if_false]
  rw [hmid]
  have hfinal : getFd { removeEntry v parent_id (Vfs.basename p) with
      fds := (removeEntry v parent_id (Vfs.basename p)).fds.set id
               { fd with links := fd.links - 1 } } id =
      ({ fd with links := 0 } : FileDescriptor) := by
    simp only [getFd]
    rw [getD_set_self]
    · rw [hlinks]
    · rw [hproj.2.2]
      exact hid
  rw [hnoop _ hfinal]
  refine ⟨by trivial, hproj.1, hproj.2.1, ?_, hfinal⟩
  have : ({ removeEntry v parent_id (Vfs.basename p) with
      fds := (removeEntry v parent_id (Vfs.basename p)).fds.set id
               { fd with links := fd.links - 1 } } : Vfs).fds.length =
      v.fds.length := by
    simp only [List.length_set]
    exact hproj.2.2
  rw [this]
  exact hid

theorem close_last_core (w : Vfs) (oid id cur : Nat) (fd : FileDescriptor)
    (brs : List Nat)
    (hh : mapGet w.open_fds oid = some (id, cur))
    (hlen : id < w.fds.length)
    (hslot : getFd w id = { fd with links := 0 })
    (hreg : fd.file_type = .Regular brs)
    (hrefs : fd.refs = 1) :
    (w.close oid).1 = .ok () ∧ id ∈ ((w.close oid).2).fds_id.free := by
  have hfdm : getFd { w with open_fds := mapDel oid w.open_fds,
                             open_fds_id := w.open_fds_id.release oid } id =
      ({ fd with links := 0 } : FileDescriptor) := hslot
  rw [Vfs.close, hh]
  dsimp only
  rw [hfdm]
  refine ⟨rfl, ?_⟩
  dsimp only
  rw [Vfs.free_fd]
  have hslot2 : getFd { w with open_fds := mapDel oid w.open_fds,
                               open_fds_id := w.open_fds_id.release oid,
                               fds := w.fds.set id
                                 { fd with links := 0,
                                           refs := ({ fd with links := 0 } :
                                             FileDescriptor).refs - 1 } } id =
      ({ fd with links := 0, refs := fd.refs - 1 } : FileDescriptor) := by
    simp only [getFd]
    rw [getD_set_self]
    simpa using hlen
  rw [hslot2]
  have hcond : ¬(({ fd with links := 0, refs := fd.refs - 1 } : FileDescriptor).links > 0 ∨
      ({ fd with links := 0, refs := fd.refs - 1 } : FileDescriptor).refs > 0) := by
    simp [hrefs]
  rw [if_neg hcond]
  dsimp only
  rw [hreg]
  dsimp only
  exact mem_setInsert.mpr (Or.inl rfl)

/-- Claim C6: if a regular file with a single hard link has an open handle
(`refs = 1` here — the final-close case; hypotheses pin down the reachable
shape of the state), then after `unlink` removes its last directory entry,
`read` and `write` on that handle still succeed, the inode id is still not
in the inode allocator's free set, and the subsequent final `close` succeeds
and releases the inode id to the allocator for reuse. -/
theorem c6_unlink_while_open (v : Vfs) (p : String) (fd : FileDescriptor)
    (id parent_id oid cur n : Nat) (data brs : List Nat)
    (hres : v.resolve p = some (fd, id, parent_id))
    (hreg : fd.file_type = .Regular brs)
    (hlinks : fd.links = 1)
    (hrefs : fd.refs = 1)
    (hpar : parent_id ≠ id)
    (hid : id < v.fds.length)
    (hgot : getFd v id = fd)
    (hh : mapGet v.open_fds oid = some (id, cur))
    (hfree : id ∉ v.fds_id.free) :
    (v.unlink p).1 = .ok () ∧
    mapGet ((v.unlink p).2).open_fds oid = some (id, cur) ∧
    (∃ bs, (((v.unlink p).2).read oid n).1 = .ok bs) ∧
    (((v.unlink p).2).write oid data).1 = .ok data.length ∧
    id ∉ ((v.unlink p).2).fds_id.free ∧
    (((v.unlink p).2).close oid).1 = .ok () ∧
    id ∈ ((((v.unlink p).2).close oid).2).fds_id.free := by
  obtain ⟨hok, hopen, hfds_id, hlen, hslot⟩ :=
    unlink_open_core v p fd id parent_id brs hres hreg hlinks (by omega) hpar hid hgot
  have hh2 : mapGet ((v.unlink p).2).open_fds oid = some (id, cur) := by
    rw [hopen]; exact hh
  obtain ⟨hcok, hcfree⟩ :=
    close_last_core ((v.unlink p).2) oid id cur fd brs hh2 hlen hslot hreg hrefs
  have hty2 : (getFd ((v.unlink p).2) id).file_type = FileType.Regular brs := by
    rw [hslot]; exact hreg
  refine ⟨hok, hh2, ?_, ?_, ?_, hcok, hcfree⟩
  · rw [Vfs.read, hh2]
    dsimp only
    rw [hty2]
    exact ⟨_, rfl⟩
  · rw [Vfs.write, hh2]
    dsimp only
    rw [hty2]
  · rw [hfds_id]; exact hfree

/-- State after `create /f; open /f` (handle `0`, inode `1`). -/
def vfsOpenF : Vfs := (vfsAfterCreateF.openFd "/f").2

/-- The descriptor of `/f` while one handle is open. -/
def fdOpenF : FileDescriptor :=
  { file_type := .Regular [], size := 0, links := 1, refs := 1 }

/-- Witness for C6 on the trace `create /f; open /f; unlink /f; read; write;
close`. -/
theorem c6_unlink_while_open_witness :
    (vfsOpenF.resolve "/f" = some (fdOpenF, 1, 0) ∧
      fdOpenF.file_type = .Regular [] ∧ fdOpenF.links = 1 ∧ fdOpenF.refs = 1 ∧
      (0 : Nat) ≠ 1 ∧ 1 < vfsOpenF.fds.length ∧ getFd vfsOpenF 1 = fdOpenF ∧
      mapGet vfsOpenF.open_fds 0 = some (1, 0) ∧ 1 ∉ vfsOpenF.fds_id.free) ∧
    ((vfsOpenF.unlink "/f").1 = .ok () ∧
      mapGet ((vfsOpenF.unlink "/f").2).open_fds 0 = some (1, 0) ∧
      (∃ bs, (((vfsOpenF.unlink "/f").2).read 0 5).1 = .ok bs) ∧
      (((vfsOpenF.unlink "/f").2).write 0 []).1 = .ok ([] : List Nat).length ∧
      1 ∉ ((vfsOpenF.unlink "/f").2).fds_id.free ∧
      (((vfsOpenF.unlink "/f").2).close 0).1 = .ok () ∧
      1 ∈ ((((vfsOpenF.unlink "/f").2).close 0).2).fds_id.free) := by
  have heval : vfsOpenF.resolve "/f" = some (fdOpenF, 1, 0) ∧
      vfsOpenF.fds.length = 2 ∧ getFd vfsOpenF 1 = fdOpenF ∧
      vfsOpenF.open_fds = [(0, 1, 0)] ∧ vfsOpenF.fds_id.free = [] := by
    refine ⟨?_, ?_, ?_, ?_, ?_⟩ <;>
    simp [vfsOpenF, fdOpenF, vfsAfterCreateF, Vfs.new, Vfs.create, Vfs.openFd,
      Vfs.resolve, resolveLoop, Vfs.root, getFd, Vfs.alloc_fd, insertEntry, removeEntry,
      Identity.new, Identity.acquire, FileDescriptor.new_dir,
      FileDescriptor.new_file, FileType.as_dir, FileType.isDir, FileType.isFile,
      entGet, entIns, mapIns, segmentize, segChars, Vfs.dirname, Vfs.basename,
      lastSepIdx, isAbsolute]
  have hh : mapGet vfsOpenF.open_fds 0 = some (1, 0) := by rw [heval.2.2.2.1]; rfl
  have hfree : 1 ∉ vfsOpenF.fds_id.free := by rw [heval.2.2.2.2]; simp
  have hid : 1 < vfsOpenF.fds.length := by rw [heval.2.1]; omega
  exact ⟨⟨heval.1, rfl, rfl, rfl, by omega, hid, heval.2.2.1, hh, hfree⟩,
    c6_unlink_while_open vfsOpenF "/f" fdOpenF 1 0 0 0 5 [] [] heval.1 rfl rfl rfl
      (by omega) hid heval.2.2.1 hh hfree⟩

/-! ### Claim C9: create is a silent no-op on an existing or empty basename -/

theorem getElem?_some_getD {α : Type} {l : List α} {i : Nat} {a : α} (d : α)
    (h : l[i]? = some a) : i < l.length ∧ l.getD i d = a := by
  induction l generalizing i with
  | nil => simp at h
  | cons x xs ih =>
    cases i with
    | zero =>
      simp only [List.getElem?_cons_zero, Option.some.injEq] at h
      subst h
      exact ⟨by simp, rfl⟩
    | succ j =>
      simp only [List.getElem?_cons_succ] at h
      obtain ⟨h1, h2⟩ := ih h
      refine ⟨by simpa using Nat.succ_lt_succ h1, ?_⟩
      simpa [List.getD_cons_succ] using h2

theorem getFd_of_getElem? {v : Vfs} {i : Nat} {fd : FileDescriptor}
    (h : v.fds[i]? = some fd) : i < v.fds.length ∧ getFd v i = fd :=
  getElem?_some_getD FileDescriptor.new_file h

/-- `dirSelfOk fd i`: when `fd` is a directory, its `.` entry names `i`. -/
def dirSelfOk (fd : FileDescriptor) (i : Nat) : Bool :=
  match fd.file_type with
  | .Directory es => entGet es "." == some i
  | _ => true

/-- Spec invariant 1, restricted to the self link: every directory's `.`
entry names its own slot. Holds in every reachable state; claim C9 only
needs it as a hypothesis discharged at its witness. -/
def DirSelfInv (v : Vfs) : Prop :=
  ∀ i, i < v.fds.length → dirSelfOk (getFd v i) i = true

theorem dirSelf_entry {v : Vfs} (hself : DirSelfInv v) {i : Nat}
    {fd : FileDescriptor} {es : List (String × Nat)}
    (hget : v.fds[i]? = some fd)
    (hty : fd.file_type = .Directory es) : entGet es "." = some i := by
  obtain ⟨hlt, hgd⟩ := getFd_of_getElem? hget
  have hok := hself i hlt
  rw [hgd, dirSelfOk, hty] at hok
  simpa using hok

theorem dirSelfInv_of_fds (v : Vfs) (L : List FileDescriptor) (h : v.fds = L)
    (hL : ∀ i, i < L.length →
      dirSelfOk (L.getD i FileDescriptor.new_file) i = true) :
    DirSelfInv v := by
  intro i hi
  rw [h] at hi
  have : getFd v i = L.getD i FileDescriptor.new_file := by rw [getFd, h]
  rw [this]
  exact hL i hi

theorem resolveLoop_single_dot (v : Vfs) (hself : DirSelfInv v)
    (next_fd : FileDescriptor) (idx c : Nat) (es : List (String × Nat))
    (hget : v.fds[idx]? = some next_fd)
    (hty : next_fd.file_type = .Directory es) :
    resolveLoop v next_fd ["."] c =
      some (next_fd, idx, (entGet es "..").getD 0) := by
  have hdot : entGet es "." = some idx := dirSelf_entry hself hget hty
  have had : next_fd.file_type.as_dir = es := by rw [hty]; rfl
  rw [resolveLoop]
  simp [had, hdot, hget]

theorem isDir_exists_entries (fd : FileDescriptor)
    (h : fd.file_type.isDir = true) : ∃ es, fd.file_type = .Directory es := by
  cases hft : fd.file_type with
  | Directory es => exact ⟨es, rfl⟩
  | Regular brs => rw [hft] at h; simp [FileType.isDir] at h
  | Symlink t => rw [hft] at h; simp [FileType.isDir] at h

/-- Appending a final `.` segment to a pathname that resolves to a directory
resolves to the same directory inode (the parent slot may differ). -/
theorem resolveLoop_append_dot (v : Vfs) (hself : DirSelfInv v)
    (fd : FileDescriptor) (segs : List String) (c : Nat) :
    ∀ d i pid, resolveLoop v fd segs c = some (d, i, pid) →
      d.file_type.isDir = true →
      ∃ pid2, resolveLoop v fd (segs ++ ["."]) c = some (d, i, pid2) := by
  induction fd, segs, c using resolveLoop.induct v with
  | case1 fd c entries idx hdot next_fd hget =>
    intro d i pid hres hdir
    replace hdot : entGet fd.file_type.as_dir "." = some idx := hdot
    have heval : resolveLoop v fd [] c =
        some (next_fd, idx, (entGet fd.file_type.as_dir "..").getD 0) := by
      rw [resolveLoop]
      simp [hdot, hget]
    rw [heval] at hres
    simp only [Option.some.injEq, Prod.mk.injEq] at hres
    obtain ⟨rfl, rfl, rfl⟩ := hres
    refine ⟨(entGet fd.file_type.as_dir "..").getD 0, ?_⟩
    rw [List.nil_append, resolveLoop]
    simp [hdot, hget]
  | case2 fd c entries idx hdot hget =>
    intro d i pid hres hdir
    replace hdot : entGet fd.file_type.as_dir "." = some idx := hdot
    rw [resolveLoop] at hres
    simp [hdot, hget] at hres
  | case3 fd c entries hdot =>
    intro d i pid hres hdir
    replace hdot : entGet fd.file_type.as_dir "." = none := hdot
    rw [resolveLoop] at hres
    simp [hdot] at hres
  | case4 fd c entries idx next_fd hget hdd =>
    intro d i pid hres hdir
    replace hdd : entGet fd.file_type.as_dir ".." = some idx := hdd
    have heval : resolveLoop v fd [".."] c =
        some (next_fd, idx, (entGet next_fd.file_type.as_dir "..").getD 0) := by
      rw [resolveLoop]
      simp [hdd, hget]
    rw [heval] at hres
    simp only [Option.some.injEq, Prod.mk.injEq] at hres
    obtain ⟨rfl, rfl, rfl⟩ := hres
    obtain ⟨es, hty⟩ := isDir_exists_entries next_fd hdir
    refine ⟨(entGet es "..").getD 0, ?_⟩
    rw [List.cons_append, List.nil_append, resolveLoop]
    simp only [hdd, hget, hty]
    simpa [hty] using resolveLoop_single_dot v hself next_fd idx c es hget hty
  | case5 fd c entries idx next_fd hget hdot hne =>
    intro d i pid hres hdir
    replace hdot : entGet fd.file_type.as_dir "." = some idx := hdot
    have heval : resolveLoop v fd ["."] c =
        some (next_fd, idx, (entGet fd.file_type.as_dir "..").getD 0) := by
      rw [resolveLoop]
      simp [hdot, hget]
    rw [heval] at hres
    simp only [Option.some.injEq, Prod.mk.injEq] at hres
    obtain ⟨rfl, rfl, rfl⟩ := hres
    obtain ⟨es, hty⟩ := isDir_exists_entries next_fd hdir
    refine ⟨(entGet es "..").getD 0, ?_⟩
    rw [List.cons_append, List.nil_append, resolveLoop]
    simp only [hdot, hget, hty]
    simpa [hty] using resolveLoop_single_dot v hself next_fd idx c es hget hty
  | case6 fd c entries seg idx hseg next_fd hget hne1 hne2 =>
    intro d i pid hres hdir
    replace hseg : entGet fd.file_type.as_dir seg = some idx := hseg
    have heval : resolveLoop v fd [seg] c =
        some (next_fd, idx, (entGet fd.file_type.as_dir ".").getD 0) := by
      rw [resolveLoop]
      simp [hseg, hget, hne1, hne2]
    rw [heval] at hres
    simp only [Option.some.injEq, Prod.mk.injEq] at hres
    obtain ⟨rfl, rfl, rfl⟩ := hres
    obtain ⟨es, hty⟩ := isDir_exists_entries next_fd hdir
    refine ⟨(entGet es "..").getD 0, ?_⟩
    rw [List.cons_append, List.nil_append, resolveLoop]
    simp only [hseg, hget, hty]
    simpa [hty] using resolveLoop_single_dot v hself next_fd idx c es hget hty
  | case7 fd c entries seg rest idx hseg next_fd hget hrest es hty ih =>
    intro d i pid hres hdir
    replace hseg : entGet fd.file_type.as_dir seg = some idx := hseg
    have heval : resolveLoop v fd (seg :: rest) c = resolveLoop v next_fd rest c := by
      rw [resolveLoop]
      simp [hseg, hget, hrest, hty]
    rw [heval] at hres
    obtain ⟨pid2, hrec⟩ := ih d i pid hres hdir
    refine ⟨pid2, ?_⟩
    rw [List.cons_append, resolveLoop]
    simp only [hseg, hget, hty]
    simpa [hrest, hty] using hrec
  | case8 fd c entries seg rest idx hseg next_fd hget hrest brs hty =>
    intro d i pid hres hdir
    replace hseg : entGet fd.file_type.as_dir seg = some idx := hseg
    rw [resolveLoop] at hres
    simp [hseg, hget, hrest, hty] at hres
  | case9 fd c entries seg rest idx hseg next_fd hget hrest path hty hlim =>
    intro d i pid hres hdir
    replace hseg : entGet fd.file_type.as_dir seg = some idx := hseg
    rw [resolveLoop] at hres
    simp [hseg, hget, hrest, hty, hlim] at hres
  | case10 fd c entries seg rest idx hseg next_fd hget hrest path hty hlim ih =>
    intro d i pid hres hdir
    replace hseg : entGet fd.file_type.as_dir seg = some idx := hseg
    have heval : resolveLoop v fd (seg :: rest) c =
        resolveLoop v (if isAbsolute path = true then v.root else fd)
          (segmentize path ++ rest) (c + 1) := by
      rw [resolveLoop]
      simp [hseg, hget, hrest, hty, hlim]
    rw [heval] at hres
    obtain ⟨pid2, hrec⟩ := ih d i pid hres hdir
    refine ⟨pid2, ?_⟩
    rw [List.cons_append, resolveLoop]
    simp only [hseg, hget, hty]
    rw [← List.append_assoc]
    simpa [hlim] using hrec
  | case11 fd c entries seg rest idx hseg hget =>
    intro d i pid hres hdir
    replace hseg : entGet fd.file_type.as_dir seg = some idx := hseg
    rw [resolveLoop] at hres
    simp [hseg, hget] at hres
  | case12 fd c entries seg rest hseg =>
    intro d i pid hres hdir
    replace hseg : entGet fd.file_type.as_dir seg = none := hseg
    rw [resolveLoop] at hres
    simp [hseg] at hres

theorem segChars_append_slash_dot (cs : List Char) (acc : List Char) :
    segChars (cs ++ ['/', '.']) acc = segChars cs acc ++ [['.']] := by
  induction cs generalizing acc with
  | nil => by_cases h : acc = [] <;> simp [segChars, h]
  | cons c cs ih =>
    by_cases h : c = '/'
    · by_cases h2 : acc = [] <;> simp [segChars, h, h2, ih]
    · simp [segChars, h, ih]

theorem data_append_slash_dot (q : String) :
    (q ++ "/" ++ ".").data = q.data ++ ['/', '.'] := by
  rw [String.data_append, String.data_append, List.append_assoc]
  rfl

theorem segmentize_append_slash_dot (q : String) :
    segmentize (q ++ "/" ++ ".") = segmentize q ++ ["."] := by
  rw [segmentize, data_append_slash_dot, segChars_append_slash_dot,
    List.map_append, segmentize]
  rfl

theorem isAbsolute_append_slash_dot (q : String) (hq : q.data ≠ []) :
    isAbsolute (q ++ "/" ++ ".") = isAbsolute q := by
  rw [isAbsolute, isAbsolute, data_append_slash_dot]
  cases hqd : q.data with
  | nil => exact absurd hqd hq
  | cons ch rest => simp

theorem dirname_data_ne_nil (p : String) : (Vfs.dirname p).data ≠ [] := by
  rw [Vfs.dirname]
  cases hls : lastSepIdx p.data 0 none with
  | none => simp
  | some idx =>
    dsimp only
    by_cases hidx : idx = 0
    · simp [hidx]
    · rw [if_neg hidx]
      cases hpd : p.data with
      | nil => rw [hpd] at hls; rw [lastSepIdx] at hls; cases hls
      | cons c cs =>
        cases idx with
        | zero => exact absurd rfl hidx
        | succ k =>
          show (c :: cs).take (k + 1) ≠ []
          simp

theorem resolve_append_slash_dot (v : Vfs) (hself : DirSelfInv v) (q : String)
    (hq : q.data ≠ []) (d : FileDescriptor) (i pid : Nat)
    (hres : v.resolve q = some (d, i, pid)) (hdir : d.file_type.isDir = true) :
    ∃ pid2, v.resolve (q ++ "/" ++ ".") = some (d, i, pid2) := by
  rw [Vfs.resolve] at hres ⊢
  rw [isAbsolute_append_slash_dot q hq, segmentize_append_slash_dot]
  exact resolveLoop_append_dot v hself _ _ _ d i pid hres hdir

/-- Claim C9: when `dirname(path)` resolves to a directory whose entries
already contain `basename(path)`, or `basename(path)` is empty, `create`
returns success and leaves the whole VFS state unchanged. `DirSelfInv` (the
spec's `.`-self-link invariant, which holds in every reachable state) is
assumed so that the resolver's internal `dirname + "/."` walk lands on the
same directory. -/
theorem c9_create_silent_noop (v : Vfs) (p : String)
    (fd : FileDescriptor) (i pid : Nat) (es : List (String × Nat))
    (hself : DirSelfInv v)
    (hres : v.resolve (Vfs.dirname p) = some (fd, i, pid))
    (hty : fd.file_type = .Directory es)
    (hcase : (entGet es (Vfs.basename p)).isSome = true ∨ Vfs.basename p = "") :
    v.create p = (Except.ok (), v) := by
  have hdir : fd.file_type.isDir = true := by rw [hty]; rfl
  obtain ⟨pid2, hres2⟩ :=
    resolve_append_slash_dot v hself (Vfs.dirname p) (dirname_data_ne_nil p)
      fd i pid hres hdir
  rw [Vfs.create, hres2]
  have had : fd.file_type.as_dir = es := by rw [hty]; rfl
  rcases hcase with hcase | hcase <;>
  simp [hdir, had, hcase]

/-- The root descriptor after `create /f`. -/
def rootFdAfterCreateF : FileDescriptor :=
  { file_type := .Directory [(".", 0), ("..", 0), ("f", 1)],
    size := 0, links := 1, refs := 0 }

/-- Witness for C9 on the state after `create /f`, re-creating `/f`: the
basename `f` already exists in the root directory, so `create` silently
succeeds and the state is unchanged. -/

theorem c9_create_silent_noop_witness :
    (DirSelfInv vfsAfterCreateF ∧
      vfsAfterCreateF.resolve (Vfs.dirname "/f") = some (rootFdAfterCreateF, 0, 0) ∧
      rootFdAfterCreateF.file_type = .Directory [(".", 0), ("..", 0), ("f", 1)] ∧
      ((entGet [(".", 0), ("..", 0), ("f", 1)] (Vfs.basename "/f")).isSome = true ∨
        Vfs.basename "/f" = "")) ∧
    vfsAfterCreateF.create "/f" = (Except.ok (), vfsAfterCreateF) := by
  have hfds : vfsAfterCreateF.fds = [rootFdAfterCreateF, FileDescriptor.new_file] := by
    simp [vfsAfterCreateF, rootFdAfterCreateF, Vfs.new, Vfs.create, Vfs.resolve,
      resolveLoop, Vfs.root, getFd, Vfs.alloc_fd, insertEntry, removeEntry, Identity.new,
      Identity.acquire, FileDescriptor.new_dir, FileDescriptor.new_file,
      FileType.as_dir, FileType.isDir, entGet, entIns, segmentize, segChars,
      Vfs.dirname, Vfs.basename, lastSepIdx, isAbsolute]
  have hself : DirSelfInv vfsAfterCreateF := by
    refine dirSelfInv_of_fds _ _ hfds ?_
    decide
  have hres : vfsAfterCreateF.resolve (Vfs.dirname "/f") =
      some (rootFdAfterCreateF, 0, 0) := by
    simp [vfsAfterCreateF, rootFdAfterCreateF, Vfs.new, Vfs.create, Vfs.resolve,
      resolveLoop, Vfs.root, getFd, Vfs.alloc_fd, insertEntry, removeEntry, Identity.new,
      Identity.acquire, FileDescriptor.new_dir, FileDescriptor.new_file,
      FileType.as_dir, FileType.isDir, entGet, entIns, segmentize, segChars,
      Vfs.dirname, Vfs.basename, lastSepIdx, isAbsolute]
  have hcase : (entGet [(".", 0), ("..", 0), ("f", 1)] (Vfs.basename "/f")).isSome =
      true ∨ Vfs.basename "/f" = "" := by
    left
    decide
  exact ⟨⟨hself, hres, rfl, hcase⟩,
    c9_create_silent_noop vfsAfterCreateF "/f" rootFdAfterCreateF 0 0
      [(".", 0), ("..", 0), ("f", 1)] hself hres rfl hcase⟩

/-! ### Reachable states and the global invariant (claims C5 and C10) -/

/-- Number of open handles referencing inode `id`. -/
def countHandles (l : List (Nat × Nat × Nat)) (id : Nat) : Nat :=
  (l.filter (fun e => e.2.1 == id)).length

theorem isFile_isDir_false {fd : FileDescriptor}
    (h : fd.file_type.isFile = true) : fd.file_type.isDir = false := by
  cases hft : fd.file_type with
  | Regular brs => rfl
  | Directory es => rw [hft] at h; simp [FileType.isFile] at h
  | Symlink t => rfl

theorem mem_mapIns {β : Type} {k : Nat} {x : β} {l : List (Nat × β)}
    {e : Nat × β} (h : e ∈ mapIns k x l) : e = (k, x) ∨ e ∈ l := by
  induction l with
  | nil => simpa [mapIns] using h
  | cons y ys ih =>
    by_cases hy : y.1 = k
    · rw [mapIns, if_pos hy] at h
      rcases List.mem_cons.mp h with rfl | h
      · exact Or.inl rfl
      · exact Or.inr (List.mem_cons_of_mem _ h)
    · rw [mapIns, if_neg hy] at h
      rcases List.mem_cons.mp h with rfl | h
      · exact Or.inr (List.mem_cons_self _ _)
      · rcases ih h with h | h
        · exact Or.inl h
        · exact Or.inr (List.mem_cons_of_mem _ h)

theorem mem_mapDel {β : Type} {k : Nat} {l : List (Nat × β)} {e : Nat × β}
    (h : e ∈ mapDel k l) : e ∈ l := by
  induction l with
  | nil => simpa [mapDel] using h
  | cons y ys ih =>
    by_cases hy : y.1 = k
    · rw [mapDel, if_pos hy] at h
      exact List.mem_cons_of_mem _ h
    · rw [mapDel, if_neg hy] at h
      rcases List.mem_cons.mp h with rfl | h
      · exact List.mem_cons_self _ _
      · exact List.mem_cons_of_mem _ (ih h)

theorem mapIns_fresh_eq_append {β : Type} (k : Nat) (x : β) (l : List (Nat × β))
    (hk : ∀ e ∈ l, e.1 ≠ k) : mapIns k x l = l ++ [(k, x)] := by
  induction l with
  | nil => rfl
  | cons y ys ih =>
    rw [mapIns, if_neg (hk y (List.mem_cons_self _ _)),
      ih (fun e he => hk e (List.mem_cons_of_mem _ he))]
    rfl

theorem mapGet_mem {β : Type} {l : List (Nat × β)} {k : Nat} {x : β}
    (h : mapGet l k = some x) : (k, x) ∈ l := by
  induction l with
  | nil => simp [mapGet] at h
  | cons y ys ih =>
    by_cases hy : y.1 = k
    · rw [mapGet, if_pos hy] at h
      have hx : y.2 = x := by injection h
      have hyx : y = (k, x) := by
        obtain ⟨y1, y2⟩ := y
        simp only at hy hx
        rw [hy, hx]
      rw [← hyx]
      exact List.mem_cons_self _ _
    · rw [mapGet, if_neg hy] at h
      exact List.mem_cons_of_mem _ (ih h)

theorem countHandles_mapIns_same (oid id cur : Nat) (l : List (Nat × Nat × Nat))
    (hl : mapGet l oid = some (id, cur)) (c2 : Nat) (j : Nat) :
    countHandles (mapIns oid (id, c2) l) j = countHandles l j := by
  induction l with
  | nil => simp [mapGet] at hl
  | cons y ys ih =>
    by_cases hy : y.1 = oid
    · rw [mapGet, if_pos hy] at hl
      have hy2 : y.2 = (id, cur) := by injection hl
      rw [mapIns, if_pos hy, countHandles, countHandles]
      simp only [List.filter, hy2]
      cases hij : (id == j) <;> simp [hij]
    · rw [mapGet, if_neg hy] at hl
      rw [mapIns, if_neg hy, countHandles, countHandles]
      simp only [List.filter]
      cases hf : (y.2.1 == j)
      · exact ih hl
      · simp only [List.length_cons]
        rw [show (List.filter (fun e => e.2.1 == j) (mapIns oid (id, c2) ys)).length =
          countHandles (mapIns oid (id, c2) ys) j from rfl,
          show (List.filter (fun e => e.2.1 == j) ys).length = countHandles ys j from rfl,
          ih hl]

theorem countHandles_append (l1 l2 : List (Nat × Nat × Nat)) (j : Nat) :
    countHandles (l1 ++ l2) j = countHandles l1 j + countHandles l2 j := by
  rw [countHandles, countHandles, countHandles, List.filter_append, List.length_append]

theorem countHandles_mapDel (oid id cur : Nat) (l : List (Nat × Nat × Nat))
    (hl : mapGet l oid = some (id, cur)) :
    ∀ j, countHandles l j =
      countHandles (mapDel oid l) j + (if id = j then 1 else 0) := by
  induction l with
  | nil => simp [mapGet] at hl
  | cons y ys ih =>
    intro j
    by_cases hy : y.1 = oid
    · rw [mapGet, if_pos hy] at hl
      have hy2 : y.2 = (id, cur) := by injection hl
      rw [mapDel, if_pos hy, countHandles, countHandles]
      simp only [List.filter, hy2]
      by_cases hij : id = j
      · simp [hij]
      · simp [hij, (by simpa using hij : (id == j) = false)]
    · rw [mapGet, if_neg hy] at hl
      rw [mapDel, if_neg hy, countHandles, countHandles]
      simp only [List.filter]
      cases hf : (y.2.1 == j)
      · exact ih hl j
      · simp only [List.length_cons]
        rw [show (List.filter (fun e => e.2.1 == j) ys).length = countHandles ys j
          from rfl,
          show (List.filter (fun e => e.2.1 == j) (mapDel oid ys)).length =
            countHandles (mapDel oid ys) j from rfl,
          ih hl j]
        omega

theorem countHandles_eq_zero {l : List (Nat × Nat × Nat)} {id : Nat}
    (h : countHandles l id = 0) : ∀ e ∈ l, e.2.1 ≠ id := by
  intro e he heq
  rw [countHandles] at h
  have : e ∈ List.filter (fun e => e.2.1 == id) l :=
    List.mem_filter.mpr ⟨he, by simpa using heq⟩
  rw [List.length_eq_zero] at h
  rw [h] at this
  cases this

theorem countHandles_map_keep (l : List (Nat × Nat × Nat))
    (f : Nat × Nat × Nat → Nat × Nat × Nat)
    (hf : ∀ e, (f e).2.1 = e.2.1) (j : Nat) :
    countHandles (l.map f) j = countHandles l j := by
  induction l with
  | nil => rfl
  | cons y ys ih =>
    rw [List.map_cons, countHandles, countHandles]
    simp only [List.filter, hf y]
    cases hy : (y.2.1 == j)
    · exact ih
    · simp only [List.length_cons]
      rw [show (List.filter (fun e => e.2.1 == j) (List.map f ys)).length =
        countHandles (List.map f ys) j from rfl,
        show (List.filter (fun e => e.2.1 == j) ys).length = countHandles ys j from rfl,
        ih]

theorem mapDel_keys_subset {β : Type} (k : Nat) (l : List (Nat × β)) :
    ∀ e ∈ mapDel k l, e ∈ l := fun _ => mem_mapDel

theorem nodup_keys_mapDel {β : Type} (k : Nat) (l : List (Nat × β))
    (h : (l.map (fun e => e.1)).Nodup) : ((mapDel k l).map (fun e => e.1)).Nodup := by
  induction l with
  | nil => simpa [mapDel]
  | cons y ys ih =>
    rw [List.map_cons, List.nodup_cons] at h
    by_cases hy : y.1 = k
    · rw [mapDel, if_pos hy]
      exact h.2
    · rw [mapDel, if_neg hy, List.map_cons, List.nodup_cons]
      refine ⟨?_, ih h.2⟩
      intro hmem
      apply h.1
      obtain ⟨e, he, heq⟩ := List.mem_map.mp hmem
      exact List.mem_map.mpr ⟨e, mem_mapDel he, heq⟩

theorem mapGet_none_of_fresh {β : Type} {l : List (Nat × β)} {k : Nat}
    (h : ∀ e ∈ l, e.1 ≠ k) : mapGet l k = none := by
  induction l with
  | nil => rfl
  | cons y ys ih =>
    rw [mapGet, if_neg (h y (List.mem_cons_self _ _))]
    exact ih (fun e he => h e (List.mem_cons_of_mem _ he))

theorem mapDel_of_absent {β : Type} {l : List (Nat × β)} {k : Nat}
    (h : ∀ e ∈ l, e.1 ≠ k) : mapDel k l = l := by
  induction l with
  | nil => rfl
  | cons y ys ih =>
    rw [mapDel, if_neg (h y (List.mem_cons_self _ _)),
      ih (fun e he => h e (List.mem_cons_of_mem _ he))]

/-- Every successful resolution returns the descriptor stored at the
returned inode id. -/
theorem resolveLoop_get (v : Vfs) (fd : FileDescriptor) (segs : List String)
    (c : Nat) : ∀ d i pid, resolveLoop v fd segs c = some (d, i, pid) →
      v.fds[i]? = some d := by
  induction fd, segs, c using resolveLoop.induct v with
  | case1 fd c entries idx hdot next_fd hget =>
    intro d i pid hres
    replace hdot : entGet fd.file_type.as_dir "." = some idx := hdot
    rw [resolveLoop] at hres
    simp only [hdot, hget] at hres
    simp only [Option.some.injEq, Prod.mk.injEq] at hres
    obtain ⟨rfl, rfl, rfl⟩ := hres
    exact hget
  | case2 fd c entries idx hdot hget =>
    intro d i pid hres
    replace hdot : entGet fd.file_type.as_dir "." = some idx := hdot
    rw [resolveLoop] at hres
    simp [hdot, hget] at hres
  | case3 fd c entries hdot =>
    intro d i pid hres
    replace hdot : entGet fd.file_type.as_dir "." = none := hdot
    rw [resolveLoop] at hres
    simp [hdot] at hres
  | case4 fd c entries idx next_fd hget hdd =>
    intro d i pid hres
    replace hdd : entGet fd.file_type.as_dir ".." = some idx := hdd
    rw [resolveLoop] at hres
    simp only [hdd, hget] at hres
    simp only [reduceIte, Option.some.injEq, Prod.mk.injEq] at hres
    obtain ⟨rfl, rfl, rfl⟩ := hres
    exact hget
  | case5 fd c entries idx next_fd hget hdot hne =>
    intro d i pid hres
    replace hdot : entGet fd.file_type.as_dir "." = some idx := hdot
    rw [resolveLoop] at hres
    simp only [hdot, hget] at hres
    simp only [reduceIte, Option.some.injEq, Prod.mk.injEq] at hres
    obtain ⟨rfl, rfl, rfl⟩ := hres
    exact hget
  | case6 fd c entries seg idx hseg next_fd hget hne1 hne2 =>
    intro d i pid hres
    replace hseg : entGet fd.file_type.as_dir seg = some idx := hseg
    rw [resolveLoop] at hres
    simp only [hseg, hget, if_pos rfl, if_neg hne1, if_neg hne2,
      Option.some.injEq, Prod.mk.injEq] at hres
    obtain ⟨rfl, rfl, rfl⟩ := hres
    exact hget
  | case7 fd c entries seg rest idx hseg next_fd hget hrest es hty ih =>
    intro d i pid hres
    replace hseg : entGet fd.file_type.as_dir seg = some idx := hseg
    rw [resolveLoop] at hres
    simp only [hseg, hget, if_neg hrest, hty] at hres
    exact ih d i pid hres
  | case8 fd c entries seg rest idx hseg next_fd hget hrest brs hty =>
    intro d i pid hres
    replace hseg : entGet fd.file_type.as_dir seg = some idx := hseg
    rw [resolveLoop] at hres
    simp [hseg, hget, hrest, hty] at hres
  | case9 fd c entries seg rest idx hseg next_fd hget hrest path hty hlim =>
    intro d i pid hres
    replace hseg : entGet fd.file_type.as_dir seg = some idx := hseg
    rw [resolveLoop] at hres
    simp [hseg, hget, hrest, hty, hlim] at hres
  | case10 fd c entries seg rest idx hseg next_fd hget hrest path hty hlim ih =>
    intro d i pid hres
    replace hseg : entGet fd.file_type.as_dir seg = some idx := hseg
    rw [resolveLoop] at hres
    simp only [hseg, hget, if_neg hrest, hty, dif_neg hlim] at hres
    exact ih d i pid hres
  | case11 fd c entries seg rest idx hseg hget =>
    intro d i pid hres
    replace hseg : entGet fd.file_type.as_dir seg = some idx := hseg
    rw [resolveLoop] at hres
    simp [hseg, hget] at hres
  | case12 fd c entries seg rest hseg =>
    intro d i pid hres
    replace hseg : entGet fd.file_type.as_dir seg = none := hseg
    rw [resolveLoop] at hres
    simp [hseg] at hres

theorem resolve_get {v : Vfs} {p : String} {d : FileDescriptor} {i pid : Nat}
    (h : v.resolve p = some (d, i, pid)) :
    i < v.fds.length ∧ getFd v i = d := by
  rw [Vfs.resolve] at h
  exact getFd_of_getElem? (resolveLoop_get v _ _ 0 d i pid h)

/-- Case description of `free_fd`: either a no-op (when `links` or `refs` is
positive), or it releases the inode id (and, for regulars, the block refs)
while leaving the arena, handles and working directory untouched. -/
theorem free_fd_cases (v : Vfs) (id : Nat) :
    (((getFd v id).links > 0 ∨ (getFd v id).refs > 0) ∧ v.free_fd id = v) ∨
    ((getFd v id).links = 0 ∧ (getFd v id).refs = 0 ∧
      (v.free_fd id).fds = v.fds ∧
      (v.free_fd id).open_fds = v.open_fds ∧
      (v.free_fd id).open_fds_id = v.open_fds_id ∧
      (v.free_fd id).cwd_id = v.cwd_id ∧
      (v.free_fd id).fds_id.free = setInsert id v.fds_id.free ∧
      (v.free_fd id).fds_id.next = v.fds_id.next) := by
  by_cases hc : (getFd v id).links > 0 ∨ (getFd v id).refs > 0
  · left
    refine ⟨hc, ?_⟩
    rw [Vfs.free_fd, if_pos hc]
  · right
    refine ⟨by omega, by omega, ?_⟩
    rw [Vfs.free_fd, if_neg hc]
    cases hft : (getFd v id).file_type with
    | Regular brs => exact ⟨rfl, rfl, rfl, rfl, rfl, rfl⟩
    | Directory es => exact ⟨rfl, rfl, rfl, rfl, rfl, rfl⟩
    | Symlink t => exact ⟨rfl, rfl, rfl, rfl, rfl, rfl⟩

/-- Case description of `alloc_fd`: grow (push) when the free set is empty,
otherwise reuse the smallest free id (overwrite in place). -/
theorem alloc_fd_cases (v : Vfs) (f : Nat → FileDescriptor) :
    (v.fds_id.free = [] ∧
      v.alloc_fd f = (v.fds_id.next,
        { v with fds_id := ⟨[], v.fds_id.next + 1⟩,
                 fds := v.fds ++ [f v.fds_id.next] })) ∨
    (∃ x xs, v.fds_id.free = x :: xs ∧
      v.alloc_fd f = (x,
        { v with fds_id := ⟨xs, v.fds_id.next⟩, fds := v.fds.set x (f x) })) := by
  obtain ⟨vb, vf, vo, vbi, ⟨ff, fn⟩, voi, vc, vw⟩ := v
  cases ff with
  | nil => left; exact ⟨rfl, rfl⟩
  | cons x xs => right; exact ⟨x, xs, rfl, rfl⟩

/-- The part of the spec's state invariant that claim C10 rests on: the
working directory and the root always name in-bounds directory slots, ids in
the inode allocator's free set name non-directory slots (so an allocation
can never overwrite a live directory), every directory slot keeps a positive
link count (so `free_fd` never releases a directory id), and the allocator's
free set is strictly sorted with `next` tracking the arena length. -/
structure VfsInv (v : Vfs) : Prop where
  fds_next : v.fds_id.next = v.fds.length
  fds_sorted : v.fds_id.free.Pairwise (· < ·)
  fds_free_nodir : ∀ id ∈ v.fds_id.free, (getFd v id).file_type.isDir = false
  fds_free_lt : ∀ id ∈ v.fds_id.free, id < v.fds.length
  cwd_lt : v.cwd_id < v.fds.length
  cwd_dir : (getFd v v.cwd_id).file_type.isDir = true
  root_lt : 0 < v.fds.length
  root_dir : (getFd v 0).file_type.isDir = true
  dir_links : ∀ i, (getFd v i).file_type.isDir = true → 0 < (getFd v i).links

/-- One mutating library call, with arbitrary arguments. -/
inductive Step : Vfs → Vfs → Prop where
  | symlink (v : Vfs) (target pathname : String) : Step v (v.symlink target pathname).2
  | cd (v : Vfs) (pathname : String) : Step v (v.cd pathname).2
  | mkdir (v : Vfs) (pathname : String) : Step v (v.mkdir pathname).2
  | rmdir (v : Vfs) (pathname : String) : Step v (v.rmdir pathname).2
  | create (v : Vfs) (pathname : String) : Step v (v.create pathname).2
  | link (v : Vfs) (pn1 pn2 : String) : Step v (v.link pn1 pn2).2
  | unlink (v : Vfs) (pathname : String) : Step v (v.unlink pathname).2
  | openFd (v : Vfs) (pathname : String) : Step v (v.openFd pathname).2
  | close (v : Vfs) (oid : Nat) : Step v (v.close oid).2
  | seek (v : Vfs) (oid offset : Nat) : Step v (v.seek oid offset).2
  | write (v : Vfs) (oid : Nat) (data : List Nat) : Step v (v.write oid data).2
  | read (v : Vfs) (oid size : Nat) : Step v (v.read oid size).2
  | truncate (v : Vfs) (pathname : String) (size : Nat) :
      Step v (v.truncate pathname size).2

/-- States reachable from `Vfs::new` by any sequence of operations. -/
inductive Reachable : Vfs → Prop where
  | new : Reachable Vfs.new
  | step {v w : Vfs} : Reachable v → Step v w → Reachable w

theorem vfsInv_new : VfsInv Vfs.new := by
  refine ⟨rfl, ?_, ?_, ?_, ?_, ?_, ?_, ?_, ?_⟩
  · simp [Vfs.new, Identity.new]
  · simp [Vfs.new, Identity.new]
  · simp [Vfs.new, Identity.new]
  · simp [Vfs.new]
  · simp [Vfs.new, getFd, FileDescriptor.new_dir, FileType.isDir]
  · simp [Vfs.new]
  · simp [Vfs.new, getFd, FileDescriptor.new_dir, FileType.isDir]
  · intro i hdir
    match i with
    | 0 => simp [Vfs.new, getFd, FileDescriptor.new_dir]
    | j + 1 =>
      rw [show getFd Vfs.new (j + 1) = FileDescriptor.new_file from by
        simp [getFd, Vfs.new]] at hdir
      simp [FileDescriptor.new_file, FileType.isDir] at hdir

/-! ### Preservation of the invariant by every operation -/

theorem getFd_oob {v : Vfs} {id : Nat} (h : v.fds.length ≤ id) :
    getFd v id = FileDescriptor.new_file := by
  rw [getFd]
  exact List.getD_eq_default _ _ h

theorem set_oob {α : Type} (l : List α) (i : Nat) (a : α) (h : l.length ≤ i) :
    l.set i a = l := by
  induction l generalizing i with
  | nil => rfl
  | cons x xs ih =>
    cases i with
    | zero => simp at h
    | succ j =>
      simp only [List.set]
      rw [ih j (by simpa using h)]

theorem getD_append_left {α : Type} (l l2 : List α) (i : Nat) (d : α)
    (h : i < l.length) : (l ++ l2).getD i d = l.getD i d := by
  induction l generalizing i with
  | nil => simp at h
  | cons x xs ih =>
    cases i with
    | zero => rfl
    | succ j =>
      simp only [List.cons_append, List.getD_cons_succ]
      exact ih j (by simpa using h)

theorem getD_snoc_len {α : Type} (l : List α) (a d : α) :
    (l ++ [a]).getD l.length d = a := by
  induction l with
  | nil => rfl
  | cons x xs ih => simpa [List.getD_cons_succ] using ih

/-- `VfsInv` only reads the `fds`, `fds_id` and `cwd_id` components. -/
theorem inv_congr (v w : Vfs) (hinv : VfsInv v) (hf : w.fds = v.fds)
    (hi : w.fds_id = v.fds_id) (hc : w.cwd_id = v.cwd_id) : VfsInv w := by
  have hg : ∀ i, getFd w i = getFd v i := fun i => by rw [getFd, getFd, hf]
  refine ⟨?_, ?_, ?_, ?_, ?_, ?_, ?_, ?_, ?_⟩
  · rw [hi, hf]; exact hinv.fds_next
  · rw [hi]; exact hinv.fds_sorted
  · rw [hi]; intro j hj; rw [hg]; exact hinv.fds_free_nodir j hj
  · rw [hi, hf]; exact hinv.fds_free_lt
  · rw [hc, hf]; exact hinv.cwd_lt
  · rw [hc, hg]; exact hinv.cwd_dir
  · rw [hf]; exact hinv.root_lt
  · rw [hg]; exact hinv.root_dir
  · intro i; rw [hg]; exact hinv.dir_links i

/-- Updating one arena slot preserves the invariant as long as the new
descriptor keeps the slot's directory-ness and keeps a positive link count
when the slot is a directory. -/
theorem inv_update_slot (v w : Vfs) (id : Nat) (fd : FileDescriptor)
    (hinv : VfsInv v)
    (hf : w.fds = v.fds.set id fd)
    (hi : w.fds_id = v.fds_id)
    (hc : w.cwd_id = v.cwd_id)
    (hdir : fd.file_type.isDir = (getFd v id).file_type.isDir)
    (hlinks : (getFd v id).file_type.isDir = true → 0 < fd.links) :
    VfsInv w := by
  have hlen : w.fds.length = v.fds.length := by rw [hf, List.length_set]
  have hg : ∀ j, (getFd w j).file_type.isDir = (getFd v j).file_type.isDir ∧
      ((getFd v j).file_type.isDir = true → 0 < (getFd w j).links) := by
    intro j
    by_cases hj : id = j
    · subst hj
      by_cases hlt : id < v.fds.length
      · have hrw : getFd w id = fd := by
          rw [getFd, hf, getD_set_self _ _ _ _ hlt]
        rw [hrw]
        exact ⟨hdir, hlinks⟩
      · have hrw : getFd w id = getFd v id := by
          rw [getFd, getFd, hf, set_oob _ _ _ (Nat.le_of_not_lt hlt)]
        rw [hrw]
        exact ⟨rfl, fun h => hinv.dir_links id h⟩
    · have hrw : getFd w j = getFd v j := by
        rw [getFd, getFd, hf, getD_set_ne _ _ _ _ _ hj]
      rw [hrw]
      exact ⟨rfl, fun h => hinv.dir_links j h⟩
  refine ⟨?_, ?_, ?_, ?_, ?_, ?_, ?_, ?_, ?_⟩
  · rw [hi, hlen]; exact hinv.fds_next
  · rw [hi]; exact hinv.fds_sorted
  · rw [hi]
    intro j hj
    rw [(hg j).1]
    exact hinv.fds_free_nodir j hj
  · rw [hi, hlen]; exact hinv.fds_free_lt
  · rw [hc, hlen]; exact hinv.cwd_lt
  · rw [hc, (hg v.cwd_id).1]; exact hinv.cwd_dir
  · rw [hlen]; exact hinv.root_lt
  · rw [(hg 0).1]; exact hinv.root_dir
  · intro j hj
    rw [(hg j).1] at hj
    exact (hg j).2 hj

/-- Resetting the working directory to the root preserves the invariant. -/
theorem inv_cwd_reset (v w : Vfs) (hinv : VfsInv v) (hf : w.fds = v.fds)
    (hi : w.fds_id = v.fds_id) (hc : w.cwd_id = 0) : VfsInv w := by
  have hg : ∀ i, getFd w i = getFd v i := fun i => by rw [getFd, getFd, hf]
  refine ⟨?_, ?_, ?_, ?_, ?_, ?_, ?_, ?_, ?_⟩
  · rw [hi, hf]; exact hinv.fds_next
  · rw [hi]; exact hinv.fds_sorted
  · rw [hi]; intro j hj; rw [hg]; exact hinv.fds_free_nodir j hj
  · rw [hi, hf]; exact hinv.fds_free_lt
  · rw [hc, hf]; exact hinv.root_lt
  · rw [hc, hg]; exact hinv.root_dir
  · rw [hf]; exact hinv.root_lt
  · rw [hg]; exact hinv.root_dir
  · intro i; rw [hg]; exact hinv.dir_links i

/-- `insertEntry` preserves the invariant: on the panic branch it is the
identity, otherwise it rewrites a directory slot to a directory with the
same link count. -/
theorem inv_insertEntry (v : Vfs) (hinv : VfsInv v) (id : Nat) (name : String)
    (child : Nat) : VfsInv (insertEntry v id name child) := by
  rw [insertEntry]
  split
  · rename_i es hes
    refine inv_update_slot v _ id _ hinv rfl rfl rfl ?_ ?_
    · rw [hes]
      rfl
    · intro h
      exact hinv.dir_links id h
  · exact hinv

/-- `removeEntry` preserves the invariant, for the same reason. -/
theorem inv_removeEntry (v : Vfs) (hinv : VfsInv v) (id : Nat) (name : String) :
    VfsInv (removeEntry v id name) := by
  rw [removeEntry]
  split
  · rename_i es hes
    refine inv_update_slot v _ id _ hinv rfl rfl rfl ?_ ?_
    · rw [hes]
      rfl
    · intro h
      exact hinv.dir_links id h
  · exact hinv

/-- `removeEntry` keeps every slot's directory-ness. -/
theorem removeEntry_isDir (v : Vfs) (id : Nat) (name : String) (j : Nat) :
    (getFd (removeEntry v id name) j).file_type.isDir
      = (getFd v j).file_type.isDir := by
  rw [removeEntry]
  split
  · rename_i es hes
    show (((v.fds.set id _).getD j FileDescriptor.new_file)).file_type.isDir = _
    by_cases hj : id = j
    · subst hj
      by_cases hlt : id < v.fds.length
      · rw [getD_set_self _ _ _ _ hlt]
        show true = (getFd v id).file_type.isDir
        rw [hes]
        rfl
      · rw [set_oob _ _ _ (Nat.le_of_not_lt hlt)]
        rfl
    · rw [getD_set_ne _ _ _ _ _ hj]
      rfl
  · rfl

/-- `alloc_fd` preserves the invariant whenever the allocated descriptor
respects the positive-link-count rule for directories. On growth the arena
gains a slot at the old length; on reuse the overwritten slot was in the
free set, hence not a directory, hence neither the root nor the working
directory. -/
theorem inv_alloc_fd (v : Vfs) (hinv : VfsInv v) (f : Nat → FileDescriptor)
    (hf : ∀ i, (f i).file_type.isDir = true → 0 < (f i).links) :
    VfsInv (v.alloc_fd f).2 := by
  rcases alloc_fd_cases v f with ⟨hfree, heq⟩ | ⟨x, xs, hfree, heq⟩
  · rw [heq]
    have hlen : (v.fds ++ [f v.fds_id.next]).length = v.fds.length + 1 := by
      simp
    refine ⟨?_, ?_, ?_, ?_, ?_, ?_, ?_, ?_, ?_⟩
    · show v.fds_id.next + 1 = (v.fds ++ [f v.fds_id.next]).length
      rw [hlen, hinv.fds_next]
    · exact List.Pairwise.nil
    · intro j hj
      simp at hj
    · intro j hj
      simp at hj
    · show v.cwd_id < (v.fds ++ [f v.fds_id.next]).length
      rw [hlen]
      exact Nat.lt_succ_of_lt hinv.cwd_lt
    · show ((v.fds ++ [f v.fds_id.next]).getD v.cwd_id
          FileDescriptor.new_file).file_type.isDir = true
      rw [getD_append_left _ _ _ _ hinv.cwd_lt]
      exact hinv.cwd_dir
    · show 0 < (v.fds ++ [f v.fds_id.next]).length
      rw [hlen]
      exact Nat.succ_pos _
    · show ((v.fds ++ [f v.fds_id.next]).getD 0
          FileDescriptor.new_file).file_type.isDir = true
      rw [getD_append_left _ _ _ _ hinv.root_lt]
      exact hinv.root_dir
    · intro i
      show ((v.fds ++ [f v.fds_id.next]).getD i
            FileDescriptor.new_file).file_type.isDir = true →
          0 < ((v.fds ++ [f v.fds_id.next]).getD i FileDescriptor.new_file).links
      rcases Nat.lt_trichotomy i v.fds.length with h1 | h1 | h1
      · rw [getD_append_left _ _ _ _ h1]
        exact hinv.dir_links i
      · rw [h1, getD_snoc_len]
        exact hf v.fds_id.next
      · rw [List.getD_eq_default]
        · intro h
          simp [FileDescriptor.new_file, FileType.isDir] at h
        · rw [hlen]
          omega
  · rw [heq]
    have hxmem : x ∈ v.fds_id.free := by
      rw [hfree]
      exact List.mem_cons_self x xs
    have hxlt : x < v.fds.length := hinv.fds_free_lt x hxmem
    have hxnd : (getFd v x).file_type.isDir = false := hinv.fds_free_nodir x hxmem
    have hpair : (x :: xs).Pairwise (· < ·) := by
      rw [← hfree]
      exact hinv.fds_sorted
    have hlen : (v.fds.set x (f x)).length = v.fds.length := by simp
    refine ⟨?_, ?_, ?_, ?_, ?_, ?_, ?_, ?_, ?_⟩
    · show v.fds_id.next = (v.fds.set x (f x)).length
      rw [hlen]
      exact hinv.fds_next
    · exact (List.pairwise_cons.mp hpair).2
    · intro j hj
      have hjne : x ≠ j := Nat.ne_of_lt ((List.pairwise_cons.mp hpair).1 j hj)
      show ((v.fds.set x (f x)).getD j FileDescriptor.new_file).file_type.isDir = false
      rw [getD_set_ne _ _ _ _ _ hjne]
      exact hinv.fds_free_nodir j (by rw [hfree]; exact List.mem_cons_of_mem x hj)
    · intro j hj
      show j < (v.fds.set x (f x)).length
      rw [hlen]
      exact hinv.fds_free_lt j (by rw [hfree]; exact List.mem_cons_of_mem x hj)
    · show v.cwd_id < (v.fds.set x (f x)).length
      rw [hlen]
      exact hinv.cwd_lt
    · have hne : x ≠ v.cwd_id := by
        intro hx
        rw [hx, hinv.cwd_dir] at hxnd
        exact Bool.noConfusion hxnd
      show ((v.fds.set x (f x)).getD v.cwd_id FileDescriptor.new_file).file_type.isDir = true
      rw [getD_set_ne _ _ _ _ _ hne]
      exact hinv.cwd_dir
    · show 0 < (v.fds.set x (f x)).length
      rw [hlen]
      exact hinv.root_lt
    · have hne : x ≠ 0 := by
        intro hx
        rw [hx, hinv.root_dir] at hxnd
        exact Bool.noConfusion hxnd
      show ((v.fds.set x (f x)).getD 0 FileDescriptor.new_file).file_type.isDir = true
      rw [getD_set_ne _ _ _ _ _ hne]
      exact hinv.root_dir
    · intro i
      show ((v.fds.set x (f x)).getD i FileDescriptor.new_file).file_type.isDir = true →
          0 < ((v.fds.set x (f x)).getD i FileDescriptor.new_file).links
      by_cases hix : x = i
      · subst hix
        rw [getD_set_self _ _ _ _ hxlt]
        exact hf x
      · rw [getD_set_ne _ _ _ _ _ hix]
        exact hinv.dir_links i

/-- `free_fd` preserves the invariant: it no-ops unless `links = refs = 0`,
and a slot with `links = 0` is in bounds (the out-of-bounds default has one
link) and not a directory (directories keep positive links). -/
theorem inv_free_fd (v : Vfs) (hinv : VfsInv v) (id : Nat) :
    VfsInv (v.free_fd id) := by
  rcases free_fd_cases v id with ⟨_, heq⟩ |
    ⟨hl0, hr0, hfds, hopen, hoid, hcwd, hfree, hnext⟩
  · rw [heq]
    exact hinv
  · have hlt : id < v.fds.length := by
      by_contra hge
      rw [getFd_oob (Nat.le_of_not_lt hge)] at hl0
      simp [FileDescriptor.new_file] at hl0
    have hnodir : (getFd v id).file_type.isDir = false := by
      by_contra hd
      rw [Bool.not_eq_false] at hd
      have := hinv.dir_links id hd
      omega
    have hg : ∀ j, getFd (v.free_fd id) j = getFd v j := fun j => by
      rw [getFd, getFd, hfds]
    refine ⟨?_, ?_, ?_, ?_, ?_, ?_, ?_, ?_, ?_⟩
    · rw [hnext, hfds]
      exact hinv.fds_next
    · rw [hfree]
      exact pairwise_setInsert hinv.fds_sorted
    · rw [hfree]
      intro j hj
      rw [hg]
      rcases mem_setInsert.mp hj with rfl | hj2
      · exact hnodir
      · exact hinv.fds_free_nodir j hj2
    · rw [hfree, hfds]
      intro j hj
      rcases mem_setInsert.mp hj with rfl | hj2
      · exact hlt
      · exact hinv.fds_free_lt j hj2
    · rw [hcwd, hfds]
      exact hinv.cwd_lt
    · rw [hcwd, hg]
      exact hinv.cwd_dir
    · rw [hfds]
      exact hinv.root_lt
    · rw [hg]
      exact hinv.root_dir
    · intro i
      rw [hg]
      exact hinv.dir_links i

theorem inv_symlink (v : Vfs) (hinv : VfsInv v) (t p : String) :
    VfsInv (v.symlink t p).2 := by
  unfold Vfs.symlink
  dsimp only
  cases hres : v.resolve (Vfs.dirname p) with
  | none => exact hinv
  | some r =>
    obtain ⟨fd, id, pid⟩ := r
    dsimp only
    split
    · exact hinv
    · split
      · exact hinv
      · exact inv_insertEntry _
          (inv_alloc_fd v hinv _
            (fun i h => by
              simp [FileDescriptor.new_symlink, FileType.isDir] at h)) id _ _

theorem inv_cd (v : Vfs) (hinv : VfsInv v) (p : String) : VfsInv (v.cd p).2 := by
  unfold Vfs.cd
  dsimp only
  cases hres : v.resolve (p ++ "/" ++ ".") with
  | none => exact hinv
  | some r =>
    obtain ⟨fd, id, pid⟩ := r
    dsimp only
    split
    · exact hinv
    · rename_i hdir
      obtain ⟨hlt, hget⟩ := resolve_get hres
      have hd : (getFd v id).file_type.isDir = true := by
        rw [hget]
        simpa using hdir
      exact ⟨hinv.fds_next, hinv.fds_sorted, hinv.fds_free_nodir, hinv.fds_free_lt,
        hlt, hd, hinv.root_lt, hinv.root_dir, hinv.dir_links⟩

theorem inv_mkdir (v : Vfs) (hinv : VfsInv v) (p : String) :
    VfsInv (v.mkdir p).2 := by
  unfold Vfs.mkdir
  dsimp only
  cases hres : v.resolve (Vfs.dirname (trimTrailingSep p) ++ "/" ++ ".") with
  | none => exact hinv
  | some r =>
    obtain ⟨fd, pid, gid⟩ := r
    dsimp only
    split
    · exact hinv
    · split
      · exact hinv
      · exact inv_insertEntry _
          (inv_alloc_fd v hinv _
            (fun i h => by simp [FileDescriptor.new_dir])) pid _ _

theorem inv_create (v : Vfs) (hinv : VfsInv v) (p : String) :
    VfsInv (v.create p).2 := by
  unfold Vfs.create
  dsimp only
  cases hres : v.resolve (Vfs.dirname p ++ "/" ++ ".") with
  | none => exact hinv
  | some r =>
    obtain ⟨fd, id, pid⟩ := r
    dsimp only
    split
    · exact hinv
    · split
      · exact hinv
      · exact inv_insertEntry _
          (inv_alloc_fd v hinv _
            (fun i h => by
              simp [FileDescriptor.new_file, FileType.isDir] at h)) id _ _

theorem inv_link (v : Vfs) (hinv : VfsInv v) (p1 p2 : String) :
    VfsInv (v.link p1 p2).2 := by
  unfold Vfs.link
  dsimp only
  cases hres1 : v.resolve p1 with
  | none => dsimp only; exact hinv
  | some r1 =>
    cases hres2 : v.resolve (Vfs.dirname p2) with
    | none => dsimp only; exact hinv
    | some r2 =>
      obtain ⟨fd1, id1, pid1⟩ := r1
      obtain ⟨fd2, id2, pid2⟩ := r2
      dsimp only
      split
      · exact hinv
      · split
        · exact hinv
        · split
          · exact hinv
          · refine inv_update_slot (insertEntry v id2 (Vfs.basename p2) id1) _ id1 _
              (inv_insertEntry v hinv id2 _ id1) rfl rfl rfl rfl ?_
            intro h
            exact Nat.succ_pos _

theorem inv_unlink (v : Vfs) (hinv : VfsInv v) (p : String) :
    VfsInv (v.unlink p).2 := by
  unfold Vfs.unlink
  dsimp only
  cases hres : v.resolve p with
  | none => exact hinv
  | some r =>
    obtain ⟨fd, id, pid⟩ := r
    dsimp only
    split
    · exact hinv
    · rename_i hnd
      obtain ⟨hlt, hget⟩ := resolve_get hres
      apply inv_free_fd
      refine inv_update_slot (removeEntry v pid (Vfs.basename p)) _ id _
        (inv_removeEntry v hinv pid _) rfl rfl rfl rfl ?_
      intro hdirid
      rw [removeEntry_isDir, hget] at hdirid
      exact absurd hdirid hnd

/-- Tail of `rmdir`: attempt `free_fd`, then reset the working directory to
the root when it was the removed slot. -/
theorem inv_rmdir_tail (w : Vfs) (hw : VfsInv w) (id : Nat) :
    VfsInv (if id = (w.free_fd id).cwd_id then { w.free_fd id with cwd_id := 0 }
            else w.free_fd id) := by
  have h2 : VfsInv (w.free_fd id) := inv_free_fd w hw id
  split
  · exact inv_cwd_reset _ _ h2 rfl rfl rfl
  · exact h2

theorem inv_rmdir (v : Vfs) (hinv : VfsInv v) (p : String) :
    VfsInv (v.rmdir p).2 := by
  unfold Vfs.rmdir
  dsimp only
  cases hres : v.resolve p with
  | none => exact hinv
  | some r =>
    obtain ⟨fd, id, pid⟩ := r
    dsimp only
    split
    · exact hinv
    · split
      · exact hinv
      · split
        · exact hinv
        · apply inv_rmdir_tail
          split
          · split
            · exact inv_removeEntry v hinv pid _
            · exact hinv
          · exact hinv

theorem inv_openFd (v : Vfs) (hinv : VfsInv v) (p : String) :
    VfsInv (v.openFd p).2 := by
  unfold Vfs.openFd
  dsimp only
  cases hres : v.resolve p with
  | none => exact hinv
  | some r =>
    obtain ⟨fd, id, pid⟩ := r
    dsimp only
    split
    · exact hinv
    · refine inv_update_slot v _ id _ hinv rfl rfl rfl rfl ?_
      intro h
      exact hinv.dir_links id h

theorem inv_close (v : Vfs) (hinv : VfsInv v) (oid : Nat) :
    VfsInv (v.close oid).2 := by
  unfold Vfs.close
  dsimp only
  cases hres : mapGet v.open_fds oid with
  | none => exact hinv
  | some r =>
    obtain ⟨id, cur⟩ := r
    dsimp only
    apply inv_free_fd
    refine inv_update_slot v _ id _ hinv rfl rfl rfl rfl ?_
    intro h
    exact hinv.dir_links id h

theorem inv_seek (v : Vfs) (hinv : VfsInv v) (oid off : Nat) :
    VfsInv (v.seek oid off).2 := by
  unfold Vfs.seek
  dsimp only
  cases hres : mapGet v.open_fds oid with
  | none => exact hinv
  | some r =>
    obtain ⟨id, cur⟩ := r
    dsimp only
    split
    · exact inv_congr v _ hinv rfl rfl rfl
    · exact inv_congr v _ hinv rfl rfl rfl

theorem inv_write (v : Vfs) (hinv : VfsInv v) (oid : Nat) (data : List Nat) :
    VfsInv (v.write oid data).2 := by
  unfold Vfs.write
  dsimp only
  cases hres : mapGet v.open_fds oid with
  | none => exact hinv
  | some r =>
    obtain ⟨id, cur⟩ := r
    dsimp only
    split
    · rename_i brs hft
      dsimp only
      refine inv_update_slot v _ id _ hinv rfl rfl rfl ?_ ?_
      · rw [hft]
        rfl
      · intro h
        rw [hft] at h
        simp [FileType.isDir] at h
    · exact hinv

theorem inv_read (v : Vfs) (hinv : VfsInv v) (oid sz : Nat) :
    VfsInv (v.read oid sz).2 := by
  unfold Vfs.read
  dsimp only
  cases hres : mapGet v.open_fds oid with
  | none => exact hinv
  | some r =>
    obtain ⟨id, cur⟩ := r
    dsimp only
    split
    · exact inv_congr v _ hinv rfl rfl rfl
    · exact hinv

theorem inv_truncate (v : Vfs) (hinv : VfsInv v) (p : String) (sz : Nat) :
    VfsInv (v.truncate p sz).2 := by
  unfold Vfs.truncate
  dsimp only
  cases hres : v.resolve p with
  | none => exact hinv
  | some r =>
    obtain ⟨fd0, id, pid⟩ := r
    dsimp only
    split
    · exact hinv
    · rename_i hfile
      obtain ⟨hlt, hget⟩ := resolve_get hres
      have hnd : (getFd v id).file_type.isDir = false := by
        rw [hget]
        exact isFile_isDir_false (by simpa using hfile)
      split
      · dsimp only
        refine inv_update_slot v _ id _ hinv rfl rfl rfl ?_ ?_
        · rw [hnd]
          rfl
        · intro h
          rw [hnd] at h
          simp at h
      · split
        · dsimp only
          refine inv_update_slot v _ id _ hinv rfl rfl rfl ?_ ?_
          · rw [hnd]
            rfl
          · intro h
            rw [hnd] at h
            simp at h
        · dsimp only
          refine inv_update_slot v _ id _ hinv rfl rfl rfl rfl ?_
          intro h
          rw [hnd] at h
          simp at h

/-- Any single operation preserves the invariant. -/
theorem step_inv {v w : Vfs} (hinv : VfsInv v) (hs : Step v w) : VfsInv w := by
  cases hs with
  | symlink t p => exact inv_symlink v hinv t p
  | cd p => exact inv_cd v hinv p
  | mkdir p => exact inv_mkdir v hinv p
  | rmdir p => exact inv_rmdir v hinv p
  | create p => exact inv_create v hinv p
  | link p1 p2 => exact inv_link v hinv p1 p2
  | unlink p => exact inv_unlink v hinv p
  | openFd p => exact inv_openFd v hinv p
  | close oid => exact inv_close v hinv oid
  | seek oid off => exact inv_seek v hinv oid off
  | write oid data => exact inv_write v hinv oid data
  | read oid sz => exact inv_read v hinv oid sz
  | truncate p sz => exact inv_truncate v hinv p sz

/-- Every state reachable from `Vfs::new` satisfies the invariant. -/
theorem reachable_inv {v : Vfs} (h : Reachable v) : VfsInv v := by
  induction h with
  | new => exact vfsInv_new
  | step hr hs ih => exact step_inv ih hs

/-- Claim C10: in every VFS state reachable from `Vfs::new` by any sequence
of operations, the working-directory slot `fds[cwd_id]` is in bounds and
holds a Directory inode (`cd` installs `cwd_id` only after a directory
check, directories keep positive link counts so they are never freed or
overwritten by an allocation, and `rmdir` of the working directory resets
`cwd_id` to the root `0`), so the `as_dir` accessor applied to the starting
inode of relative path resolution never hits its panic branch. -/
theorem c10_cwd_always_directory (v : Vfs) (h : Reachable v) :
    v.cwd_id < v.fds.length ∧ (getFd v v.cwd_id).file_type.isDir = true :=
  ⟨(reachable_inv h).cwd_lt, (reachable_inv h).cwd_dir⟩

/-- Witness for C10 at the state reached by one `mkdir /a` step from the
fresh VFS. -/
theorem c10_cwd_always_directory_witness :
    Reachable ((Vfs.new).mkdir "/a").2 ∧
      ((Vfs.new).mkdir "/a").2.cwd_id < ((Vfs.new).mkdir "/a").2.fds.length ∧
      (getFd ((Vfs.new).mkdir "/a").2
        ((Vfs.new).mkdir "/a").2.cwd_id).file_type.isDir = true :=
  ⟨Reachable.step Reachable.new (Step.mkdir Vfs.new "/a"),
    c10_cwd_always_directory ((Vfs.new).mkdir "/a").2
      (Reachable.step Reachable.new (Step.mkdir Vfs.new "/a"))⟩

/-! ### Trace for claim C5: a stale directory entry lets a cursor outrun
the file size -/

/-- State after `create /f; unlink /f/` on a fresh VFS. The trailing slash
makes `unlink` remove basename `""` from the parent — a no-op, so the entry
`f → 1` survives — while still decrementing `links` and freeing inode 1. -/
def vfsC5u : Vfs := (vfsAfterCreateF.unlink "/f/").2

/-- ... then `open /f`: resolves through the stale entry to the freed slot
`1` and hands out handle `0` with cursor `0`. -/
def vfsC5o : Vfs := (vfsC5u.openFd "/f").2

/-- ... then `truncate /f 4`: grows the freed-but-still-visible file to
size `4`. -/
def vfsC5t : Vfs := (vfsC5o.truncate "/f" 4).2

/-- ... then `seek 0 4`: moves the cursor to `4`, allowed because the size
is `4`. -/
def vfsC5s : Vfs := (vfsC5t.seek 0 4).2

/-- ... then `create /g`: the inode allocator reuses freed id `1` and
resets the slot to a fresh empty file while handle `0` still points at it
with cursor `4`. -/
def vfsC5 : Vfs := (vfsC5s.create "/g").2

/-- Claim C5 (code bug): the claimed invariant `cursor ≤ size` for every
open handle is broken by the source. On the trace `create /f; unlink /f/;
open /f; truncate /f 4; seek 0 4; create /g` every call succeeds, yet in
the final state handle `0` maps to `(inode 1, cursor 4)` while inode 1 has
size `0`: `unlink` with a trailing slash frees the inode without removing
the directory entry, so the freed id is reused under a live handle. A
subsequent `read(0, _)` evaluates the unsigned subtraction
`fd.size - cursor = 0 - 4` in the source, which underflows. -/
theorem c5_cursor_exceeds_size :
    ((Vfs.new).create "/f").1 = .ok () ∧
    (vfsAfterCreateF.unlink "/f/").1 = .ok () ∧
    (vfsC5u.openFd "/f").1 = .ok 0 ∧
    (vfsC5o.truncate "/f" 4).1 = .ok () ∧
    (vfsC5t.seek 0 4).1 = .ok () ∧
    (vfsC5s.create "/g").1 = .ok () ∧
    mapGet vfsC5.open_fds 0 = some (1, 4) ∧
    (getFd vfsC5 1).size = 0 := by
  refine ⟨?_, ?_, ?_, ?_, ?_, ?_, ?_, ?_⟩ <;>
  simp [vfsC5, vfsC5s, vfsC5t, vfsC5o, vfsC5u, vfsAfterCreateF, Vfs.new,
    Vfs.create, Vfs.unlink, Vfs.openFd, Vfs.truncate, Vfs.seek, Vfs.resolve,
    resolveLoop, Vfs.root, getFd, Vfs.alloc_fd, Vfs.free_fd, insertEntry,
    removeEntry, Identity.new, Identity.acquire, Identity.release, setInsert,
    mapGet, mapIns, FileDescriptor.new_file, FileDescriptor.new_dir,
    FileType.as_dir, FileType.as_file, FileType.isDir, FileType.isFile,
    entGet, entIns, entDel, segmentize, segChars, Vfs.dirname, Vfs.basename,
    lastSepIdx, isAbsolute, listResize, fillZeros, BLOCK_SIZE]
